import Mathlib

/-!
# Verification of `scripts/build_prices.py`

A shallow embedding of the price-list build pipeline: Python strings become
`String`/`List Char`, dictionaries become association lists, `set` becomes
`Finset String`, and the numeric values obtained from `float(...)` are modelled
exactly as decimal fractions (`Dec`, a mantissa together with a power-of-ten
denominator), which is faithful for the decimal literals the script consumes.

Sections:
1. Python string primitives (`strip`, `lower`, `in`, `str(int)`).
2. Field formatters (`format_number`, `format_price`, `format_job`, ...).
3. Title builder (`extract_generation`, `format_section_title`, ...).
4. Slug allocator (`slugify`, `unique_slug`).
5. Grouping engine (`build_sections`).
6. Renderers and the `main` dispatch (`parse_csv`, `render_*`, `runPipeline`).
Then the lemmas and the claim theorems.
-/

namespace BuildPrices

/-! ## 1. Python string primitives -/

/-- ASCII whitespace, as stripped by Python `str.strip()` (the embedding restricts
the source's Unicode-aware stripping to ASCII). -/
def isPySpace (c : Char) : Bool :=
  c = ' ' || c = '\t' || c = '\n' || c = '\r' || c = '\x0b' || c = '\x0c'

/-- Drop the longest suffix whose characters satisfy `p`: the right half of
Python's `str.strip`/`str.rstrip`. -/
def dropTrailingWhile (p : Char → Bool) : List Char → List Char
  | [] => []
  | a :: rest =>
    if (dropTrailingWhile p rest).isEmpty && p a then [] else a :: dropTrailingWhile p rest

/-- Python `str.strip(chars)` on a character list: drop the matching characters
from both ends. -/
def pyStripList (p : Char → Bool) (l : List Char) : List Char :=
  dropTrailingWhile p (l.dropWhile p)

/-- Python `value.strip()`. -/
def pyStrip (s : String) : String :=
  String.mk (pyStripList isPySpace s.data)

/-- ASCII lower-casing of one character (`str.lower`, restricted to ASCII). -/
def asciiLower (c : Char) : Char :=
  if 'A' ≤ c ∧ c ≤ 'Z' then Char.ofNat (c.toNat + 32) else c

/-- ASCII upper-casing of one character (`str.upper`, restricted to ASCII). -/
def asciiUpper (c : Char) : Char :=
  if 'a' ≤ c ∧ c ≤ 'z' then Char.ofNat (c.toNat - 32) else c

/-- Python `value.lower()`. -/
def pyLower (s : String) : String :=
  String.mk (s.data.map asciiLower)

/-- Python `value.upper()`. -/
def pyUpper (s : String) : String :=
  String.mk (s.data.map asciiUpper)

/-- `capitalise` (line 87): `text[:1].upper() + text[1:] if text else text`. -/
def capitalise (s : String) : String :=
  match s.data with
  | [] => s
  | c :: rest => String.mk (asciiUpper c :: rest)

/-- Helper for Python's substring test `needle in hay`. -/
def hasSub (needle : List Char) : List Char → Bool
  | [] => needle.isEmpty
  | c :: t => needle.isPrefixOf (c :: t) || hasSub needle t

/-- Python `needle in hay` on strings. -/
def strContains (hay needle : String) : Bool :=
  hasSub needle.data hay.data

/-- Python `value.replace(",", "")`. -/
def stripCommas (s : String) : String :=
  String.mk (s.data.filter (fun c => c ≠ ','))

/-- The decimal digit characters (only ever applied to numbers below ten). -/
def digitChar : ℕ → Char
  | 0 => '0' | 1 => '1' | 2 => '2' | 3 => '3' | 4 => '4'
  | 5 => '5' | 6 => '6' | 7 => '7' | 8 => '8' | _ => '9'

/-- Numeric value of a decimal digit character. -/
def digitVal (c : Char) : ℕ := c.toNat - 48

/-- Value of a digit string read most-significant first. -/
def digitsVal (l : List Char) : ℕ :=
  l.foldl (fun a c => a * 10 + digitVal c) 0

/-- Digits of `n`, most significant first; the fuel argument bounds the recursion
and is always supplied large enough. -/
def natReprAux : ℕ → ℕ → List Char
  | 0, _ => []
  | fuel + 1, n =>
    if n < 10 then [digitChar n]
    else natReprAux fuel (n / 10) ++ [digitChar (n % 10)]

/-- Decimal rendering of a natural number, as Python `str`/f-strings render it. -/
def natRepr (n : ℕ) : String :=
  String.mk (natReprAux (n + 1) n)

/-- Decimal rendering of an integer, as Python `str`/f-strings render it. -/
def intRepr (i : ℤ) : String :=
  if i < 0 then "-" ++ natRepr i.natAbs else natRepr i.natAbs

/-! ## 2. Field formatters -/

/-- The exact decimal value `mant / 10 ^ exp`: the embedding of the Python floats
produced by `float(...)` on the decimal literals this script consumes (IEEE
binary rounding is idealised away; the script only ever tests such a value for
integrality, compares it with 0 and 1, and formats it). -/
structure Dec where
  mant : ℤ
  exp : ℕ
deriving DecidableEq, Repr

/-- Python `float.is_integer()` on the exact decimal value. -/
def Dec.isInt (d : Dec) : Bool :=
  Int.fmod d.mant ((10 : ℤ) ^ d.exp) = 0

/-- Python `int(value)` for an integral value (exact division). -/
def Dec.toInt (d : Dec) : ℤ :=
  Int.fdiv d.mant ((10 : ℤ) ^ d.exp)

/-- Python `value == 0`. -/
def Dec.isZero (d : Dec) : Bool := d.mant = 0

/-- Round `num / den` (`den > 0`) to the nearest integer, ties to even: the
rounding of `"%.2f" % value` on the exact decimal value. -/
def roundHalfEven (num den : ℤ) : ℤ :=
  let q := Int.fdiv num den
  let r := Int.fmod num den
  if 2 * r < den then q
  else if den < 2 * r then q + 1
  else if Int.fmod q 2 = 0 then q else q + 1

/-- `"%.2f" % value`: sign, integer part, point, two decimals. -/
def formatTwoDec (d : Dec) : String :=
  let scaled := roundHalfEven (d.mant * 100) ((10 : ℤ) ^ d.exp)
  let sign := if scaled < 0 then "-" else ""
  let a := scaled.natAbs
  sign ++ natRepr (a / 100) ++ "." ++ (if a % 100 < 10 then "0" else "") ++ natRepr (a % 100)

/-- `.rstrip("0").rstrip(".")` applied to a `"%.2f"` rendering. -/
def stripDecZeros (s : String) : String :=
  String.mk (dropTrailingWhile (fun c => c = '.') (dropTrailingWhile (fun c => c = '0') s.data))

/-- `format_number` (lines 78-84). -/
def format_number (value : Dec) : String :=
  if value.isInt then
    let v := value.toInt
    if v ≠ 0 ∧ Int.fmod v 1000 = 0 then intRepr (Int.fdiv v 1000) ++ "k"
    else intRepr v
  else stripDecZeros (formatTwoDec value)

/-- Exponent part of a Python float literal (`e`/`E` already consumed). -/
def parseExp (l : List Char) : Option ℤ :=
  let p : ℤ × List Char :=
    match l with
    | '+' :: t => (1, t)
    | '-' :: t => (-1, t)
    | _ => (1, l)
  let ds := p.2.takeWhile Char.isDigit
  if ds.isEmpty || !(p.2.dropWhile Char.isDigit).isEmpty then none
  else some (p.1 * digitsVal ds)

/-- Scale a decimal value by `10 ^ ex`. -/
def applyExp (d : Dec) (ex : ℤ) : Dec :=
  if 0 ≤ ex then ⟨d.mant * 10 ^ ex.toNat, d.exp⟩ else ⟨d.mant, d.exp + (-ex).toNat⟩

/-- Model of Python `float(text)` on finite decimal literals: optional
whitespace, sign, digits with an optional fraction, optional exponent.
(`inf`, `nan` and underscore separators are outside the model; the value is
taken exactly.)  Returns `none` where `float` raises `ValueError`. -/
def parseFloat (s : String) : Option Dec :=
  let l := pyStripList isPySpace s.data
  let p : ℤ × List Char :=
    match l with
    | '+' :: t => (1, t)
    | '-' :: t => (-1, t)
    | _ => (1, l)
  let ip := p.2.takeWhile Char.isDigit
  let rest := p.2.dropWhile Char.isDigit
  match rest with
  | [] => if ip.isEmpty then none else some ⟨p.1 * digitsVal ip, 0⟩
  | '.' :: t =>
    let fp := t.takeWhile Char.isDigit
    let rest2 := t.dropWhile Char.isDigit
    if ip.isEmpty && fp.isEmpty then none
    else
      let mant : ℤ := p.1 * (digitsVal ip * 10 ^ fp.length + digitsVal fp)
      match rest2 with
      | [] => some ⟨mant, fp.length⟩
      | e :: t2 =>
        if e = 'e' ∨ e = 'E' then (parseExp t2).map (applyExp ⟨mant, fp.length⟩) else none
  | e :: t2 =>
    if (e = 'e' ∨ e = 'E') ∧ !ip.isEmpty then
      (parseExp t2).map (applyExp ⟨p.1 * digitsVal ip, 0⟩)
    else none

/-- `CURRENCY_SYMBOLS` (line 158) looked up at a currency code. -/
def CURRENCY_SYMBOLS (c : String) : Option String :=
  if c = "GBP" then some "£"
  else if c = "USD" then some "$"
  else if c = "EUR" then some "€"
  else none

/-- `CURRENCY_SYMBOL` (line 159): `CURRENCY_SYMBOLS.get(CURRENCY.upper(), CURRENCY + " ")`,
parameterised by the configured currency (environment default `"GBP"`). -/
def currencySymbol (currency : String) : String :=
  match CURRENCY_SYMBOLS (pyUpper currency) with
  | some s => s
  | none => currency ++ " "

/-- The `CURRENCY_SYMBOL` for the default configuration `CURRENCY = "GBP"`. -/
def defaultSymbol : String := currencySymbol "GBP"

/-- `format_price` (lines 162-173), parameterised by the currency symbol. -/
def format_price (sym : String) (value : String) : String :=
  let raw := pyStrip value
  if raw = "" then "POA"
  else
    let candidate := stripCommas raw
    match parseFloat candidate with
    | none => raw
    | some number =>
      if number.isInt then sym ++ intRepr number.toInt
      else sym ++ format_number number

/-- `format_job` (lines 91-113). -/
def format_job (category item : String) : String :=
  let category := pyStrip category
  let item := pyStrip item
  let cat_lower := pyLower category
  let item_lower := pyLower item
  if cat_lower = "scheduled service" then
    if item = "" then "Scheduled Service"
    else if item_lower = "maintenance" then "Maintenance"
    else if !strContains item_lower "service" then item ++ " Service"
    else item
  else if cat_lower = "fluids" then
    if item = "" then "Fluids"
    else if !strContains item_lower "change" then item ++ " Change"
    else item
  else if item ≠ "" then item
  else if category ≠ "" then category
  else "—"

/-- `format_miles_part` (lines 116-127). -/
def format_miles_part (value : String) : String :=
  let raw := pyStrip (stripCommas value)
  if raw = "" then ""
  else
    match parseFloat raw with
    | none => capitalise (pyStrip value)
    | some number =>
      if number.isZero then ""
      else format_number number ++ " miles"

/-- `format_years_part` (lines 130-144). -/
def format_years_part (value : String) : String :=
  let raw := pyStrip (stripCommas value)
  if raw = "" then ""
  else
    match parseFloat raw with
    | none => capitalise (pyStrip value)
    | some number =>
      if number.isZero then ""
      else if number.isInt then
        let n := number.toInt
        intRepr n ++ " " ++ (if n = 1 then "year" else "years")
      else format_number number ++ " years"

/-- `format_interval` (lines 147-155). -/
def format_interval (miles years : String) : String :=
  let miles_part := format_miles_part miles
  let years_part := format_years_part years
  let parts := (if miles_part ≠ "" then [miles_part] else []) ++
    (if years_part ≠ "" then [years_part] else [])
  if parts ≠ [] then " / ".intercalate parts else "—"

/-! ## 3. Title builder -/

/-- `[a-z0-9]` (the character class kept by `slugify`). -/
def isSlugAl (c : Char) : Bool :=
  ('a' ≤ c && c ≤ 'z') || ('0' ≤ c && c ≤ '9')

/-- `[A-Za-z0-9]`. -/
def isAsciiAlnum (c : Char) : Bool :=
  c.isDigit || c.isUpper || c.isLower

/-- `[A-Za-z]`. -/
def isAsciiAlpha (c : Char) : Bool :=
  c.isUpper || c.isLower

/-- `re.fullmatch(r"[0-9]{2,4}(?:-[0-9]{2,4})?", s)`: a bare 2-4 digit token or a
`digits-digits` range.  The quantifiers are bounded, so a full match forces the
first digit group to be the maximal leading digit run. -/
def fullmatchGenRange (l : List Char) : Bool :=
  let d1 := l.takeWhile Char.isDigit
  let rest := l.dropWhile Char.isDigit
  (2 ≤ d1.length && d1.length ≤ 4) &&
    (match rest with
     | [] => true
     | '-' :: r2 => r2.all Char.isDigit && 2 ≤ r2.length && r2.length ≤ 4
     | _ => false)

/-- `re.fullmatch(r"[0-9]{2,4}[A-Za-z]?", s)`: 2-4 digits plus at most one letter. -/
def fullmatchGenLetter (l : List Char) : Bool :=
  let d1 := l.takeWhile Char.isDigit
  let rest := l.dropWhile Char.isDigit
  (2 ≤ d1.length && d1.length ≤ 4) &&
    (match rest with
     | [] => true
     | [c] => isAsciiAlpha c
     | _ => false)

/-- `GENERATION_RE.match(variant)` (line 176, `^\s*([0-9]{2,4}[A-Za-z0-9]*)`): after
leading whitespace, a run of at least two digits extends (greedily, through the
trailing `[A-Za-z0-9]*`) to the maximal leading alphanumeric run, which is the
captured group; fewer than two leading digits fail the match. -/
def extractGenToken (l : List Char) : Option (List Char) :=
  let afterWs := l.dropWhile isPySpace
  if 2 ≤ (afterWs.takeWhile Char.isDigit).length then
    some (afterWs.takeWhile isAsciiAlnum)
  else none

/-- `extract_generation` (lines 179-191). -/
def extract_generation (model variant years : String) : String :=
  let variant := pyStrip variant
  let years := pyStrip years
  let model := pyStrip model
  match extractGenToken variant.data with
  | some tok => String.mk tok
  | none =>
    if years ≠ "" ∧ years.data.any Char.isDigit then years
    else if variant ≠ "" then variant
    else model

/-- `lower(l).startswith(lower(pre))` for the case-insensitive checks of the
title builder (ASCII lower-casing, as in `pyLower`). -/
def startsWithCI (l pre : List Char) : Bool :=
  (pre.map asciiLower).isPrefixOf (l.map asciiLower)

/-- The separator set `" -–/"` stripped from title remainders (line 204). -/
def isSepChar (c : Char) : Bool :=
  c = ' ' || c = '-' || c = '–' || c = '/'

/-- `format_section_title` (lines 194-208).  Note line 200 normalises only en
dashes (`"–"`), not em dashes. -/
def format_section_title (model generation : String) : String :=
  let model := pyStrip model
  let generation := pyStrip generation
  if generation = "" ∨ pyLower generation = pyLower model then model
  else
    let normalised := generation.data.map (fun c => if c = '–' then '-' else c)
    if fullmatchGenRange normalised then model ++ " (" ++ generation ++ ")"
    else if startsWithCI generation.data model.data then
      let remainder := pyStripList isSepChar (generation.data.drop model.data.length)
      if !remainder.isEmpty then model ++ " " ++ String.mk remainder else model
    else if fullmatchGenLetter generation.data then model ++ " (" ++ generation ++ ")"
    else if model ≠ "" then model ++ " " ++ generation
    else generation

/-- The separator set `"-–/"` of `lstrip` on variant names (line 223). -/
def isDashSep (c : Char) : Bool :=
  c = '-' || c = '–' || c = '/'

/-- `format_variant_heading` (lines 211-230).  The `model` argument is unused in
the source as well. -/
def format_variant_heading (model generation variant years powertrain transmission : String) :
    String :=
  let name0 := pyStrip variant
  let generation := pyStrip generation
  let name :=
    if generation ≠ "" ∧ startsWithCI name0.data generation.data then
      pyStripList isPySpace
        ((pyStripList isPySpace (name0.data.drop generation.data.length)).dropWhile isDashSep)
    else name0.data
  let extras := (([years, powertrain, transmission].filter
    (fun x => x ≠ "" && pyStrip x ≠ "")).map pyStrip)
  if !name.isEmpty && !extras.isEmpty then
    String.mk name ++ " (" ++ ", ".intercalate extras ++ ")"
  else if name.isEmpty && !extras.isEmpty then ", ".intercalate extras
  else String.mk name

/-- `format_combination_title` (lines 233-253). -/
def format_combination_title (model generation variant years powertrain transmission : String) :
    String :=
  let base := format_section_title model generation
  let heading := format_variant_heading model generation variant years powertrain transmission
  if base ≠ "" ∧ heading ≠ "" then base ++ " — " ++ heading
  else if heading ≠ "" then heading
  else if base ≠ "" then base
  else if model ≠ "" then model
  else "Price list"

/-! ## 4. Slug allocator -/

/-- Collapse every run of `'-'` to a single `'-'` (`re.sub(r"-+", "-", ...)`; and
after every non-alphanumeric character has been mapped to `'-'`, it also realises
`re.sub(r"[^a-z0-9]+", "-", ...)`, since those runs are exactly the `'-'` runs). -/
def squeezeDashes : List Char → List Char
  | [] => []
  | [c] => [c]
  | a :: b :: rest =>
    if a = '-' && b = '-' then squeezeDashes (b :: rest)
    else a :: squeezeDashes (b :: rest)

/-- `slugify(*parts)` (lines 59-65). -/
def slugify (parts : List String) : String :=
  let text := "-".intercalate (parts.filter (fun p => p ≠ ""))
  let l := text.data.map (fun c => if c = '–' || c = '—' then '-' else c)
  let l := l.map asciiLower
  let l := squeezeDashes (l.map (fun c => if isSlugAl c then c else '-'))
  let l := squeezeDashes l
  let l := pyStripList (fun c => c = '-') l
  if l.isEmpty then "section" else String.mk l

/-- The candidate tried by the `while` loop of `unique_slug`: `f"{base}-{counter}"`. -/
def slugCandidate (base : String) (counter : ℕ) : String :=
  base ++ "-" ++ natRepr counter

/-- The `while` loop of `unique_slug` (lines 71-73), with explicit fuel.  The
caller passes `used.card + 1`, which `findSuffix_not_mem_of_card_lt` below shows
is always enough for the loop to exit, so the fuel-exhausted base case is never
reached. -/
def findSuffix (base : String) (used : Finset String) : ℕ → ℕ → String
  | 0, counter => slugCandidate base counter
  | fuel + 1, counter =>
    if slugCandidate base counter ∈ used then findSuffix base used fuel (counter + 1)
    else slugCandidate base counter

/-- `unique_slug(base, used)` (lines 68-75), returning the slug together with the
updated set (the Python function mutates `used` in place). -/
def unique_slug (base : String) (used : Finset String) : String × Finset String :=
  let init := if base = "" then "section" else base
  if init ∈ used then
    let slug := findSuffix base used (used.card + 1) 2
    (slug, insert slug used)
  else (init, insert init used)

/-! ## 5. Grouping engine -/

/-- A normalized row: the Python dict produced by `parse_csv` (lower-cased header →
trimmed cell), as an association list. -/
abbrev Row := List (String × String)

/-- `row.get(key)` with the script's `or ""` convention: a missing key and an
empty value are indistinguishable everywhere the script reads a row. -/
def rget (r : Row) (k : String) : String :=
  match r.find? (fun kv => kv.1 = k) with
  | some kv => kv.2
  | none => ""

/-- `(row.get("model_family") or row.get("model") or "").strip()` (line 278). -/
def rowModel (r : Row) : String :=
  pyStrip (if rget r "model_family" ≠ "" then rget r "model_family" else rget r "model")

/-- The guard of line 279-280: rows with a blank resolved model are skipped. -/
def rowQual (r : Row) : Bool :=
  rowModel r ≠ ""

/-- `variant` as computed on line 281. -/
def rowVariant (r : Row) : String := pyStrip (rget r "variant")

/-- `years` as computed on line 282. -/
def rowYears (r : Row) : String := pyStrip (rget r "years")

/-- `powertrain` as computed on line 283. -/
def rowPowertrain (r : Row) : String := pyStrip (rget r "powertrain")

/-- `transmission` as computed on line 284. -/
def rowTransmission (r : Row) : String := pyStrip (rget r "transmission")

/-- `generation` as computed on line 285. -/
def rowGeneration (r : Row) : String :=
  extract_generation (rowModel r) (rowVariant r) (rowYears r)

/-- `model_key = (model, generation)` (line 287). -/
abbrev MKey := String × String

/-- `variant_key = (variant, years, powertrain, transmission)` (line 288). -/
abbrev VKey := String × String × String × String

def rowMKey (r : Row) : MKey := (rowModel r, rowGeneration r)

def rowVKey (r : Row) : VKey :=
  (rowVariant r, rowYears r, rowPowertrain r, rowTransmission r)

/-- The nested `OrderedDict` of the grouping loop, as an insertion-ordered
association list of association lists. -/
abbrev Grouped := List (MKey × List (VKey × List Row))

/-- `model_bucket.setdefault(variant_key, []).append(row)` (line 291): append `r`
to the bucket of `vk`, first-seen order preserved. -/
def insertVar (vk : VKey) (r : Row) : List (VKey × List Row) → List (VKey × List Row)
  | [] => [(vk, [r])]
  | (k, es) :: rest =>
    if k = vk then (k, es ++ [r]) :: rest
    else (k, es) :: insertVar vk r rest

/-- `grouped.setdefault(model_key, OrderedDict())` plus the variant-level insert
(lines 290-291). -/
def insertRow (mk : MKey) (vk : VKey) (r : Row) : Grouped → Grouped
  | [] => [(mk, [(vk, [r])])]
  | (k, vs) :: rest =>
    if k = mk then (k, insertVar vk r vs) :: rest
    else (k, vs) :: insertRow mk vk r rest

/-- The first loop of `build_sections` (lines 277-291). -/
def groupRows (rows : List Row) : Grouped :=
  rows.foldl (fun acc r => if rowQual r then insertRow (rowMKey r) (rowVKey r) r acc else acc) []

/-- A formatted row (`format_row`, lines 256-269). -/
structure FRow where
  job : String
  interval : String
  price : String
  service_category : String
  service_item : String
  interval_miles : String
  interval_years : String
  raw_price : String
deriving DecidableEq, Repr

/-- `format_row(row)` (lines 256-269); prices use the default `GBP` symbol. -/
def format_row (r : Row) : FRow where
  job := format_job (rget r "service_category") (rget r "service_item")
  interval := format_interval (rget r "interval_miles") (rget r "interval_years")
  price := format_price defaultSymbol (rget r "price_gbp_ex_vat")
  service_category := rget r "service_category"
  service_item := rget r "service_item"
  interval_miles := rget r "interval_miles"
  interval_years := rget r "interval_years"
  raw_price := rget r "price_gbp_ex_vat"

/-- One of the section dicts appended on lines 314-328. -/
structure Section where
  model_family : String
  generation : String
  variant : String
  years : String
  powertrain : String
  transmission : String
  slug : String
  model_slug : String
  model_title : String
  title : String
  rows : List FRow
deriving DecidableEq, Repr

/-- The inner loop over `variants.items()` (lines 305-328), threading the section
slug set. -/
def buildVariantSections (model generation base_title model_slug : String) :
    List (VKey × List Row) → Finset String → List Section × Finset String
  | [], usedSec => ([], usedSec)
  | ((variant, years, powertrain, transmission), entries) :: rest, usedSec =>
    let title := format_combination_title model generation variant years powertrain transmission
    let p := unique_slug (slugify [model, generation, variant, years, powertrain, transmission])
      usedSec
    let sec : Section :=
      { model_family := model, generation := generation, variant := variant, years := years,
        powertrain := powertrain, transmission := transmission, slug := p.1,
        model_slug := model_slug, model_title := base_title, title := title,
        rows := entries.map format_row }
    let q := buildVariantSections model generation base_title model_slug rest p.2
    (sec :: q.1, q.2)

/-- Association-list lookup standing in for `model_slug_map.get` (line 300). -/
def lookupMKey (m : List (MKey × String)) (k : MKey) : Option String :=
  match m.find? (fun kv => kv.1 = k) with
  | some kv => some kv.2
  | none => none

/-- The outer loop over `grouped.items()` (lines 298-328), threading the section
slug set, the model slug set and the model slug cache. -/
def buildModelSections :
    Grouped → Finset String → Finset String → List (MKey × String) →
    List Section × Finset String × Finset String × List (MKey × String)
  | [], usedSec, usedModel, slugMap => ([], usedSec, usedModel, slugMap)
  | ((model, generation), variants) :: rest, usedSec, usedModel, slugMap =>
    let base_title := format_section_title model generation
    let pms : String × Finset String × List (MKey × String) :=
      match lookupMKey slugMap (model, generation) with
      | some s => (s, usedModel, slugMap)
      | none =>
        let p := unique_slug (slugify [model, generation]) usedModel
        (p.1, p.2, slugMap ++ [((model, generation), p.1)])
    let bv := buildVariantSections model generation base_title pms.1 variants usedSec
    let rest' := buildModelSections rest bv.2 pms.2.1 pms.2.2
    (bv.1 ++ rest'.1, rest'.2)

/-- `build_sections(rows)` (lines 272-330). -/
def build_sections (rows : List Row) : List Section :=
  (buildModelSections (groupRows rows) ∅ ∅ []).1

/-! ## 6. Renderers and the `main` dispatch -/

/-- `escape(s)` (lines 56-57): `html.escape(s, quote=False)`, i.e. the successive
single-character replacements `& → &amp;`, then `< → &lt;`, then `> → &gt;`
(quotes untouched).  A single-character `str.replace` is exactly a character-wise
flat map. -/
def replaceAllChar (c : Char) (rep : List Char) (l : List Char) : List Char :=
  l.flatMap (fun d => if d = c then rep else [d])

def escape (s : String) : String :=
  let l := s.data
  let l := replaceAllChar '&' "&amp;".data l
  let l := replaceAllChar '<' "&lt;".data l
  let l := replaceAllChar '>' "&gt;".data l
  String.mk l

/-- The lines appended per section by `render_price_sections` (lines 341-373). -/
def renderSectionLines (s : Section) : List String :=
  let inner := "        "
  let attrs := ["data-model=\"" ++ escape s.slug ++ "\""] ++
    (if s.model_slug ≠ "" then ["data-alias=\"" ++ escape s.model_slug ++ "\""] else [])
  let attr_str := " ".intercalate attrs
  [inner ++ "<section class=\"price-section hidden\" " ++ attr_str ++ ">",
   inner ++ "  <h3 class=\"text-2xl font-bold\">" ++ escape s.title ++ "</h3>"] ++
  (if s.rows.isEmpty then
    [inner ++ "  <p class=\"mt-2 text-sm text-neutral-300\">No price list is available for this model at the moment.</p>"]
   else
    [inner ++ "  <div class=\"mt-4 overflow-x-auto rounded-lg border border-white/10\">",
     inner ++ "    <table class=\"min-w-full table-auto text-sm\">",
     inner ++ "      <thead class=\"bg-neutral-900/80\">",
     inner ++ "        <tr><th class=\"px-4 py-3 text-left font-semibold\">Job</th><th class=\"px-4 py-3 text-left font-semibold\">Interval</th><th class=\"px-4 py-3 text-left font-semibold\">Price (ex-VAT)</th></tr>",
     inner ++ "      </thead>",
     inner ++ "      <tbody class=\"divide-y divide-white/10\">"] ++
    s.rows.map (fun item =>
      inner ++ "        <tr><td class=\"px-4 py-3\">" ++ escape item.job ++
        "</td><td class=\"px-4 py-3\">" ++ escape item.interval ++
        "</td><td class=\"px-4 py-3\">" ++ escape item.price ++ "</td></tr>") ++
    [inner ++ "      </tbody>",
     inner ++ "    </table>",
     inner ++ "  </div>"]) ++
  [inner ++ "</section>"]

/-- `render_price_sections(sections)` (lines 333-376). -/
def render_price_sections (sections : List Section) : String :=
  let outer := "      "
  "\n".intercalate
    ([outer ++ "<div class=\"mt-8 space-y-12\" id=\"priceLists\" aria-live=\"polite\">"] ++
     sections.flatMap renderSectionLines ++
     [outer ++ "</div>"])

/-- The loop of `render_datalist_options` (lines 381-390), threading the `seen` set. -/
def datalistLines : List Section → Finset String → List String
  | [], _ => []
  | s :: rest, seen =>
    let model_slug := if s.model_slug ≠ "" then s.model_slug else s.slug
    if model_slug ∈ seen then datalistLines rest seen
    else
      let model_title := if s.model_title ≠ "" then s.model_title else s.title
      ("              <option data-value=\"" ++ escape model_slug ++ "\" value=\"" ++
        escape model_title ++ "\"></option>") :: datalistLines rest (insert model_slug seen)

/-- `render_datalist_options(sections)` (lines 379-391). -/
def render_datalist_options (sections : List Section) : String :=
  "\n".intercalate
    ("              <option data-value=\"all\" value=\"All models\"></option>" ::
      datalistLines sections ∅)

/-- One element of `build_json_payload` (lines 394-412). -/
structure JsonSection where
  id : String
  title : String
  model_family : String
  generation : String
  variant : String
  years : String
  powertrain : String
  transmission : String
  model_slug : String
  model_title : String
  items : List FRow
deriving DecidableEq, Repr

/-- `build_json_payload(sections)` (lines 394-412). -/
def build_json_payload (sections : List Section) : List JsonSection :=
  sections.map (fun s =>
    { id := s.slug, title := s.title, model_family := s.model_family,
      generation := s.generation, variant := s.variant, years := s.years,
      powertrain := s.powertrain, transmission := s.transmission,
      model_slug := s.model_slug, model_title := s.model_title, items := s.rows })

/-- Python `hay.find(needle)` on character lists, reporting the first index. -/
def strFindAux (needle : List Char) : List Char → ℕ → Option ℕ
  | [], i => if needle.isEmpty then some i else none
  | c :: t, i =>
    if needle.isPrefixOf (c :: t) then some i else strFindAux needle t (i + 1)

/-- Python `hay.find(needle)` (`none` for `-1`). -/
def strFind (hay needle : String) : Option ℕ :=
  strFindAux needle.data hay.data 0

/-- Python `hay.find(needle, start)`. -/
def strFindFrom (hay needle : String) (start : ℕ) : Option ℕ :=
  (strFindAux needle.data (hay.data.drop start) 0).map (· + start)

/-- `replace_between_markers` (lines 439-444); the `RuntimeError` becomes the
error branch of `Except`. -/
def replace_between_markers (text start stop replacement : String) : Except String String :=
  match strFind text start, strFind text stop with
  | some i, some j =>
    if j < i then Except.error "Markers not found or out of order"
    else Except.ok (String.mk (text.data.take (i + start.data.length) ++ "\n".data ++
      replacement.data ++ "\n".data ++ text.data.drop j))
  | _, _ => Except.error "Markers not found or out of order"

/-- `replace_datalist_options` (lines 415-427). -/
def replace_datalist_options (html_text options_html : String) : String :=
  match strFind html_text "<datalist id=\"carOptions\">" with
  | none => html_text
  | some start0 =>
    match strFindFrom html_text ">" start0 with
    | none => html_text
    | some s1 =>
      let s2 := s1 + 1
      match strFindFrom html_text "</datalist>" s2 with
      | none => html_text
      | some e =>
        String.mk (html_text.data.take s2 ++ "\n".data ++ options_html.data ++ "\n".data ++
          html_text.data.drop e)

/-- `render_table(headers, rows)` (lines 430-437), the legacy flat table. -/
def render_table (headers : List String) (rows : List Row) : String :=
  let thead := "<thead><tr>" ++
    String.join (headers.map (fun h => "<th>" ++ escape h ++ "</th>")) ++ "</tr></thead>"
  let body_cells := rows.map (fun row =>
    "<tr>" ++ String.join (headers.map (fun h => "<td>" ++ escape (rget row h) ++ "</td>")) ++
      "</tr>")
  let tbody := "<tbody>\n" ++ "\n".intercalate body_cells ++ "\n</tbody>"
  "<table class=\"w-full text-sm md:text-base\">\n" ++ thead ++ "\n" ++ tbody ++ "\n</table>"

/-- `MARK_START` (line 16). -/
def MARK_START : String := "<!-- BEGIN:PRICE_LIST -->"

/-- `MARK_END` (line 17). -/
def MARK_END : String := "<!-- END:PRICE_LIST -->"

/-- `parse_csv(text)` (lines 35-54), taking the record matrix produced by the
`csv.reader` tokenizer (treated as an external collaborator): header trimming,
row padding/truncation, all-blank-row skipping, and the raw/normalized dict pair.
Python dict construction with duplicate keys keeps the last value, realised by
`dictSet`'s overwrite semantics. -/
def dictSet (d : Row) (k v : String) : Row :=
  if d.any (fun kv => kv.1 = k) then d.map (fun kv => if kv.1 = k then (k, v) else kv)
  else d ++ [(k, v)]

def dictOfPairs (ps : List (String × String)) : Row :=
  ps.foldl (fun d kv => dictSet d kv.1 kv.2) []

def parse_csv (records : List (List String)) : List String × List Row × List Row :=
  match records with
  | [] => ([], [], [])
  | r0 :: rest =>
    let headers := r0.map pyStrip
    let norm_headers := headers.map pyLower
    let keep := fun (r : List String) =>
      (r ++ List.replicate headers.length "").take headers.length
    let good := rest.filter (fun r => (keep r).any (fun v => pyStrip v ≠ ""))
    let raw_rows := good.map (fun r => dictOfPairs (headers.zip ((keep r).map pyStrip)))
    let norm_rows := good.map (fun r => dictOfPairs (norm_headers.zip ((keep r).map pyStrip)))
    (headers, raw_rows, norm_rows)

/-- The keys accumulated by `available_keys.update(row.keys())` (lines 507-509). -/
def availableKeys (norm_rows : List Row) : List String :=
  norm_rows.flatMap (fun r => r.map (fun kv => kv.1))

/-- `structured_keys` (line 511). -/
def structuredKeys : List String := ["model_family", "variant", "service_category", "service_item"]

/-- `legacy_keys` (line 512). -/
def legacyKeys : List String := ["model", "job", "interval", "price"]

/-- The JSON payload chosen by `main`: structured sections or raw legacy rows. -/
inductive Payload where
  | structured (sections : List JsonSection)
  | legacy (rows : List Row)
deriving Repr

/-- The observable outcome of `main` (lines 499-541) past the plumbing: either
the empty-CSV early return (nothing written), or the patched HTML together with
the JSON payload that would be written.  File writes, the fetch and the
`WRITE_JSONLD` opt-in (off by default) are plumbing outside the model. -/
inductive RunResult where
  | noData
  | wrote (htmlOut : String) (payload : Payload)
deriving Repr

/-- The decision logic of `main` (lines 499-541) on the parsed record matrix and
the target document text.  An `Except.error` models an uncaught exception: the
run aborts with no file written. -/
def runPipeline (records : List (List String)) (html_src : String) : Except String RunResult :=
  let parsed := parse_csv records
  let headers := parsed.1
  let raw_rows := parsed.2.1
  let norm_rows := parsed.2.2
  if raw_rows.isEmpty then Except.ok RunResult.noData
  else
    let available := availableKeys norm_rows
    if structuredKeys.all (fun k => available.contains k) then
      match replace_between_markers html_src MARK_START MARK_END
        (render_price_sections (build_sections norm_rows)) with
      | Except.error e => Except.error e
      | Except.ok html1 =>
        let html2 := replace_datalist_options html1
          (render_datalist_options (build_sections norm_rows))
        Except.ok (RunResult.wrote html2 (Payload.structured
          (build_json_payload (build_sections norm_rows))))
    else if legacyKeys.all (fun k => available.contains k) then
      match replace_between_markers html_src MARK_START MARK_END
        (render_table headers raw_rows) with
      | Except.error e => Except.error e
      | Except.ok html1 => Except.ok (RunResult.wrote html1 (Payload.legacy raw_rows))
    else Except.error "CSV headers not recognised; cannot build price list"

/-! ## 7. Specification-side definitions

Definitions transcribing the wording of the specification (not the source), used
to state the claims: the slug regular expression, the character-wise description
of the escaping, and the first-occurrence key orders. -/

/-- Matcher for the tail of `^[a-z0-9]+(-[a-z0-9]+)*$`: the part after the first
character of the leading `[a-z0-9]+` group.  Because `'-'` is not in `[a-z0-9]`,
the regex is unambiguous and equals this greedy scan. -/
def slugReAux : List Char → Bool
  | [] => true
  | [c] => isSlugAl c
  | c :: d :: rest2 =>
    if isSlugAl c then slugReAux (d :: rest2)
    else if c = '-' then isSlugAl d && slugReAux rest2
    else false

/-- The claim's regular expression `^[a-z0-9]+(-[a-z0-9]+)*$` as an executable
matcher. -/
def slugRe (l : List Char) : Bool :=
  match l with
  | [] => false
  | c :: rest => isSlugAl c && slugReAux rest

/-- No two adjacent dashes (proof-side invariant for `slugify`). -/
def noDD : List Char → Bool
  | a :: b :: t => !(a = '-' && b = '-') && noDD (b :: t)
  | _ => true

/-- The claim's character-wise description of `escape`: replace exactly `&`, `<`
and `>`, leave every other character — double and single quotes included —
unchanged. -/
def escapeCharSpec (c : Char) : List Char :=
  if c = '&' then "&amp;".data
  else if c = '<' then "&lt;".data
  else if c = '>' then "&gt;".data
  else [c]

/-- The model-key of a built section. -/
def sectionMKey (s : Section) : MKey := (s.model_family, s.generation)

/-- The variant-key of a built section. -/
def sectionVKey (s : Section) : VKey := (s.variant, s.years, s.powertrain, s.transmission)

/-- The full grouping key of a built section. -/
def sectionKey (s : Section) : MKey × VKey := (sectionMKey s, sectionVKey s)

/-- The full grouping key computed from a row. -/
def rowKey (r : Row) : MKey × VKey := (rowMKey r, rowVKey r)

/-- The input rows belonging to one (model-key, variant-key) pair, in input
order: the reference point for the round-trip claim. -/
def rowsFor (rows : List Row) (mk : MKey) (vk : VKey) : List Row :=
  rows.filter (fun r => rowQual r && rowMKey r = mk && rowVKey r = vk)

/-- Model-keys of the qualifying rows in first-occurrence order (spec §3:
"Section order matches first-occurrence order of its model-key"). -/
def mkeysFirstOcc (rows : List Row) : List MKey :=
  rows.foldl (fun ks r => if rowQual r ∧ rowMKey r ∉ ks then ks ++ [rowMKey r] else ks) []

/-- Variant-keys of the qualifying rows of one model-key, in first-occurrence
order. -/
def vkeysFirstOcc (rows : List Row) (mk : MKey) : List VKey :=
  rows.foldl
    (fun ks r => if rowQual r ∧ rowMKey r = mk ∧ rowVKey r ∉ ks then ks ++ [rowVKey r] else ks) []

/-- The data of a section that the grouping engine determines: its model-key,
its variant-key and its row list (proof-side projection). -/
def sectionData (s : Section) : MKey × VKey × List FRow :=
  ((s.model_family, s.generation), (s.variant, s.years, s.powertrain, s.transmission), s.rows)

/-- The invariant of the grouping loop of `build_sections`: after processing the
prefix `p`, the accumulator `g` lists the model-keys in first-occurrence order,
each model bucket lists its variant-keys in first-occurrence order, and each
variant bucket holds exactly the matching rows of `p` in input order. -/
def GroupInv (p : List Row) (g : Grouped) : Prop :=
  g.map Prod.fst = mkeysFirstOcc p ∧
  (∀ mk vs, (mk, vs) ∈ g → vs.map Prod.fst = vkeysFirstOcc p mk) ∧
  (∀ mk vs, (mk, vs) ∈ g → ∀ vk es, (vk, es) ∈ vs → es = rowsFor p mk vk)

/-! ### Concrete demonstration inputs used by counterexamples and witnesses -/

/-- The scenario row of C3. -/
def c3row : Row :=
  [("model_family", "Civic"), ("variant", "11th Gen"), ("years", "2022"),
   ("service_category", "Fluids"), ("service_item", "Oil"), ("price_gbp_ex_vat", "150")]

/-- A section whose model slug and title contain a double quote (for C9). -/
def quoteSection : Section :=
  { model_family := "M", generation := "", variant := "", years := "", powertrain := "",
    transmission := "", slug := "s", model_slug := "a\"b", model_title := "T\"t",
    title := "T", rows := [] }

/-- Two structured rows sharing a model-key but with different variant-keys, and
one row of a second model (for the C1/C2 witnesses). -/
def demoRows : List Row :=
  [[("model_family", "Civic"), ("variant", "11th Gen"), ("years", "2022"),
    ("service_category", "Fluids"), ("service_item", "Oil"), ("price_gbp_ex_vat", "150")],
   [("model_family", "Civic"), ("variant", "11th Gen"), ("years", "2023"),
    ("service_category", "Fluids"), ("service_item", "Oil"), ("price_gbp_ex_vat", "160")],
   [("model_family", ""), ("model", "Jazz"), ("variant", ""), ("years", ""),
    ("service_category", "Brakes"), ("service_item", "Pads"), ("price_gbp_ex_vat", "")],
   [("model_family", "   "), ("variant", "skipped")]]

/-- A record matrix whose headers match neither schema (for the C8 witness). -/
def badRecords : List (List String) := [["foo", "bar"], ["x", "y"]]

/-! ## 8. Decimal rendering: value recovery and injectivity -/

theorem digitVal_digitChar : ∀ n : ℕ, n < 10 → digitVal (digitChar n) = n := by decide

theorem digitsVal_append (l : List Char) (c : Char) :
    digitsVal (l ++ [c]) = digitsVal l * 10 + digitVal c := by
  simp [digitsVal, List.foldl_append]

theorem natReprAux_val : ∀ fuel n, n < 10 ^ fuel → digitsVal (natReprAux fuel n) = n := by
  intro fuel
  induction fuel with
  | zero =>
    intro n h
    have hn : n = 0 := by simpa using h
    subst hn; rfl
  | succ fuel ih =>
    intro n h
    rw [natReprAux]
    by_cases h10 : n < 10
    · rw [if_pos h10]
      show digitsVal [digitChar n] = n
      simp [digitsVal, digitVal_digitChar n h10]
    · rw [if_neg h10, digitsVal_append]
      have hdiv : n / 10 < 10 ^ fuel := by
        rw [Nat.div_lt_iff_lt_mul (by norm_num)]
        calc n < 10 ^ (fuel + 1) := h
        _ = 10 ^ fuel * 10 := by ring
      rw [ih (n / 10) hdiv, digitVal_digitChar _ (Nat.mod_lt _ (by norm_num))]
      omega

theorem lt_ten_pow_succ (n : ℕ) : n < 10 ^ (n + 1) :=
  lt_of_lt_of_le (Nat.lt_pow_self (by norm_num) n)
    (Nat.pow_le_pow_right (by norm_num) (Nat.le_succ n))

theorem natRepr_inj : Function.Injective natRepr := by
  intro m n h
  have hd : natReprAux (m + 1) m = natReprAux (n + 1) n := congrArg String.data h
  have hv := congrArg digitsVal hd
  rwa [natReprAux_val (m + 1) m (lt_ten_pow_succ m),
    natReprAux_val (n + 1) n (lt_ten_pow_succ n)] at hv

theorem slugCandidate_inj (base : String) : Function.Injective (slugCandidate base) := by
  intro m n h
  unfold slugCandidate at h
  have hd := congrArg String.data h
  simp only [String.data_append] at hd
  have := List.append_cancel_left hd
  exact natRepr_inj (congrArg String.mk this)

/-! ## 9. Slug shape: `slugify` output matches the slug regular expression -/

theorem noDD_tail {a : Char} {t : List Char} (h : noDD (a :: t) = true) : noDD t = true := by
  cases t with
  | nil => rfl
  | cons b t' =>
    simp only [noDD, Bool.and_eq_true] at h
    exact h.2

theorem noDD_cons_head {a b : Char} {t : List Char} (h : noDD (a :: t) = true)
    (hb : t.head? = some b) : ¬(a = '-' ∧ b = '-') := by
  cases t with
  | nil => simp at hb
  | cons c t' =>
    obtain rfl : c = b := by simpa using hb
    intro hab
    simp [noDD, hab.1, hab.2] at h

theorem noDD_cons_of {a b : Char} {t : List Char} (hpair : ¬(a = '-' ∧ b = '-'))
    (h : noDD (b :: t) = true) : noDD (a :: b :: t) = true := by
  by_cases ha : a = '-'
  · by_cases hb : b = '-'
    · exact absurd ⟨ha, hb⟩ hpair
    · simp [noDD, ha, hb, h]
  · simp [noDD, ha, h]

theorem noDD_append_left : ∀ x t : List Char, noDD (x ++ t) = true → noDD x = true := by
  intro x
  induction x with
  | nil => intro t _; rfl
  | cons a x' ih =>
    intro t h
    cases x' with
    | nil => rfl
    | cons b x'' =>
      have h' : noDD (a :: b :: (x'' ++ t)) = true := by simpa using h
      have h1 : ¬(a = '-' ∧ b = '-') := by
        intro hab; simp [noDD, hab.1, hab.2] at h'
      have h2 := ih t (by simpa using noDD_tail h')
      exact noDD_cons_of h1 h2

theorem squeezeDashes_head : ∀ l : List Char, l ≠ [] → (squeezeDashes l).head? = l.head? := by
  intro l
  induction l using squeezeDashes.induct with
  | case1 => simp
  | case2 c => intro _; rfl
  | case3 a b rest hab ih =>
    intro _
    rw [squeezeDashes, if_pos hab, ih (by simp)]
    have hab' : a = '-' ∧ b = '-' := by simpa using hab
    simp [hab'.1, hab'.2]
  | case4 a b rest hab ih =>
    intro _
    rw [squeezeDashes, if_neg hab]
    rfl

theorem squeezeDashes_subset : ∀ l : List Char, ∀ c, c ∈ squeezeDashes l → c ∈ l := by
  intro l
  induction l using squeezeDashes.induct with
  | case1 => intro c h; simpa [squeezeDashes] using h
  | case2 d => intro c h; simpa [squeezeDashes] using h
  | case3 a b rest hab ih =>
    intro c h
    rw [squeezeDashes, if_pos hab] at h
    exact List.mem_cons_of_mem a (ih c h)
  | case4 a b rest hab ih =>
    intro c h
    rw [squeezeDashes, if_neg hab] at h
    rcases List.mem_cons.mp h with rfl | h'
    · exact List.mem_cons_self _ _
    · exact List.mem_cons_of_mem a (ih c h')

theorem squeezeDashes_noDD : ∀ l : List Char, noDD (squeezeDashes l) = true := by
  intro l
  induction l using squeezeDashes.induct with
  | case1 => rfl
  | case2 c => rfl
  | case3 a b rest hab ih => rw [squeezeDashes, if_pos hab]; exact ih
  | case4 a b rest hab ih =>
    rw [squeezeDashes, if_neg hab]
    have hh : (squeezeDashes (b :: rest)).head? = some b := by
      rw [squeezeDashes_head (b :: rest) (by simp)]; rfl
    obtain ⟨X, hX⟩ : ∃ X, squeezeDashes (b :: rest) = b :: X := by
      cases hsq : squeezeDashes (b :: rest) with
      | nil => rw [hsq] at hh; simp at hh
      | cons x xs =>
        rw [hsq] at hh
        obtain rfl : x = b := by simpa using hh
        exact ⟨xs, rfl⟩
    rw [hX]
    have hpair : ¬(a = '-' ∧ b = '-') := by
      intro hab'; exact hab (by simp [hab'.1, hab'.2])
    have hrest : noDD (b :: X) = true := by rw [← hX]; exact ih
    exact noDD_cons_of hpair hrest

theorem noDD_dropWhile (p : Char → Bool) :
    ∀ l : List Char, noDD l = true → noDD (l.dropWhile p) = true := by
  intro l
  induction l with
  | nil => intro h; exact h
  | cons a t ih =>
    intro h
    by_cases hp : p a
    · rw [List.dropWhile_cons_of_pos hp]
      exact ih (noDD_tail h)
    · rw [List.dropWhile_cons_of_neg hp]
      exact h

theorem dropTrailingWhile_cons_pos (p : Char → Bool) (a : Char) (rest : List Char)
    (hc : ((dropTrailingWhile p rest).isEmpty && p a) = true) :
    dropTrailingWhile p (a :: rest) = [] := by
  rw [dropTrailingWhile, if_pos hc]

theorem dropTrailingWhile_cons_neg (p : Char → Bool) (a : Char) (rest : List Char)
    (hc : ¬((dropTrailingWhile p rest).isEmpty && p a) = true) :
    dropTrailingWhile p (a :: rest) = a :: dropTrailingWhile p rest := by
  rw [dropTrailingWhile, if_neg hc]

theorem dropTrailingWhile_prefix (p : Char → Bool) :
    ∀ l : List Char, ∃ t, l = dropTrailingWhile p l ++ t := by
  intro l
  induction l with
  | nil => exact ⟨[], rfl⟩
  | cons a rest ih =>
    obtain ⟨t0, ht0⟩ := ih
    by_cases hc : ((dropTrailingWhile p rest).isEmpty && p a) = true
    · exact ⟨a :: rest, by rw [dropTrailingWhile_cons_pos p a rest hc]; rfl⟩
    · refine ⟨t0, ?_⟩
      rw [dropTrailingWhile_cons_neg p a rest hc]
      simpa using ht0

theorem dropTrailingWhile_subset (p : Char → Bool) (l : List Char) {c : Char}
    (h : c ∈ dropTrailingWhile p l) : c ∈ l := by
  obtain ⟨t, ht⟩ := dropTrailingWhile_prefix p l
  rw [ht]
  exact List.mem_append_left t h

theorem noDD_dropTrailingWhile (p : Char → Bool) (l : List Char) (h : noDD l = true) :
    noDD (dropTrailingWhile p l) = true := by
  obtain ⟨t, ht⟩ := dropTrailingWhile_prefix p l
  exact noDD_append_left _ t (ht ▸ h)

theorem dropTrailingWhile_head (p : Char → Bool) :
    ∀ l : List Char, dropTrailingWhile p l ≠ [] →
      (dropTrailingWhile p l).head? = l.head? := by
  intro l
  cases l with
  | nil => intro _; rfl
  | cons a rest =>
    intro h
    by_cases hc : ((dropTrailingWhile p rest).isEmpty && p a) = true
    · exact absurd (dropTrailingWhile_cons_pos p a rest hc) h
    · rw [dropTrailingWhile_cons_neg p a rest hc]
      rfl

theorem dropTrailingWhile_getLast (p : Char → Bool) :
    ∀ l : List Char, ∀ c, (dropTrailingWhile p l).getLast? = some c → p c = false := by
  intro l
  induction l with
  | nil => intro c h; simp [dropTrailingWhile] at h
  | cons a rest ih =>
    intro c h
    by_cases hc : ((dropTrailingWhile p rest).isEmpty && p a) = true
    · rw [dropTrailingWhile_cons_pos p a rest hc] at h
      simp at h
    · rw [dropTrailingWhile_cons_neg p a rest hc] at h
      cases hr : dropTrailingWhile p rest with
      | nil =>
        rw [hr] at h
        obtain rfl : a = c := by simpa using h
        rw [hr] at hc
        simpa using hc
      | cons d r' =>
        rw [hr] at h
        rw [List.getLast?_cons_cons] at h
        rw [← hr] at h
        exact ih c h

theorem slugReAux_complete :
    ∀ l : List Char, (∀ c ∈ l, isSlugAl c = true ∨ c = '-') → noDD l = true →
      (∀ c, l.getLast? = some c → c ≠ '-') → slugReAux l = true := by
  intro l
  induction l using slugReAux.induct with
  | case1 => intro _ _ _; rfl
  | case2 c =>
    intro hall _ hlast
    rw [slugReAux]
    rcases hall c (by simp) with h | h
    · exact h
    · exact absurd h (hlast c (by simp))
  | case3 c d rest2 hal ih =>
    intro hall hdd hlast
    rw [slugReAux, if_pos hal]
    refine ih (fun x hx => hall x (List.mem_cons_of_mem c hx)) (noDD_tail hdd) ?_
    intro x hx
    exact hlast x (by rwa [List.getLast?_cons_cons])
  | case4 d rest2 hal ih =>
    intro hall hdd hlast
    rw [slugReAux, if_neg hal, if_pos rfl]
    have hd : d ≠ '-' := fun hd => noDD_cons_head hdd rfl ⟨rfl, hd⟩
    have hdal : isSlugAl d = true := by
      rcases hall d (by simp) with h | h
      · exact h
      · exact absurd h hd
    rw [hdal, Bool.true_and]
    refine ih (fun x hx => hall x (by simp [hx])) (noDD_tail (noDD_tail hdd)) ?_
    intro x hx
    cases rest2 with
    | nil => simp at hx
    | cons e rest3 =>
      refine hlast x ?_
      rw [List.getLast?_cons_cons, List.getLast?_cons_cons]
      exact hx
  | case5 c d rest2 hal hdash =>
    intro hall _ _
    rcases hall c (by simp) with h | h
    · exact absurd h hal
    · exact absurd h hdash

theorem slugRe_complete (l : List Char) (hne : l ≠ [])
    (hall : ∀ c ∈ l, isSlugAl c = true ∨ c = '-') (hdd : noDD l = true)
    (hhead : l.head? ≠ some '-') (hlast : ∀ c, l.getLast? = some c → c ≠ '-') :
    slugRe l = true := by
  cases l with
  | nil => exact absurd rfl hne
  | cons c rest =>
    have hc : c ≠ '-' := by
      intro h; exact hhead (by simp [h])
    have hcal : isSlugAl c = true := by
      rcases hall c (by simp) with h | h
      · exact h
      · exact absurd h hc
    rw [slugRe, hcal, Bool.true_and]
    cases rest with
    | nil => rfl
    | cons d rest' =>
      refine slugReAux_complete _ (fun x hx => hall x (by simp [hx])) (noDD_tail hdd) ?_
      intro x hx
      exact hlast x (by rwa [List.getLast?_cons_cons])

theorem head_dropWhile_false (p : Char → Bool) :
    ∀ l : List Char, ∀ c, (l.dropWhile p).head? = some c → p c = false := by
  intro l
  induction l with
  | nil => intro c h; simp at h
  | cons a t ih =>
    intro c h
    by_cases hp : p a = true
    · rw [List.dropWhile_cons_of_pos hp] at h
      exact ih c h
    · rw [List.dropWhile_cons_of_neg hp] at h
      obtain rfl : a = c := by simpa using h
      simpa using hp

theorem mem_dropWhile (p : Char → Bool) (l : List Char) {c : Char}
    (h : c ∈ l.dropWhile p) : c ∈ l :=
  (List.dropWhile_suffix p).sublist.subset h

theorem slugify_chars_ok (l0 : List Char) :
    pyStripList (fun c => c = '-')
      (squeezeDashes (squeezeDashes (l0.map (fun c => if isSlugAl c then c else '-')))) = [] ∨
    slugRe (pyStripList (fun c => c = '-')
      (squeezeDashes (squeezeDashes (l0.map (fun c => if isSlugAl c then c else '-'))))) = true := by
  set m := l0.map (fun c => if isSlugAl c then c else '-') with hm
  by_cases hne :
      pyStripList (fun c => c = '-') (squeezeDashes (squeezeDashes m)) = []
  · exact Or.inl hne
  · refine Or.inr (slugRe_complete _ hne ?_ ?_ ?_ ?_)
    · intro c hc
      have hc2 : c ∈ (squeezeDashes (squeezeDashes m)).dropWhile (fun c => c = '-') :=
        dropTrailingWhile_subset _ _ hc
      have hcm : c ∈ m :=
        squeezeDashes_subset _ c (squeezeDashes_subset _ c (mem_dropWhile _ _ hc2))
      obtain ⟨d, _, hd⟩ := List.mem_map.mp hcm
      by_cases hdal : isSlugAl d = true
      · left; rw [← hd]; simp [hdal]
      · right; rw [← hd]; simp [hdal]
    · exact noDD_dropTrailingWhile _ _ (noDD_dropWhile _ _ (squeezeDashes_noDD _))
    · intro hh
      rw [pyStripList] at hh hne
      rw [dropTrailingWhile_head _ _ hne] at hh
      have := head_dropWhile_false (fun c => c = '-') (squeezeDashes (squeezeDashes m)) '-' hh
      simp at this
    · intro c hc
      have := dropTrailingWhile_getLast (fun c => c = '-') _ c hc
      simpa using this

/-- C6: for every tuple of input strings, `slugify` either returns a string
matching `^[a-z0-9]+(-[a-z0-9]+)*$` or returns exactly `"section"`. -/
theorem spec_C6 (parts : List String) :
    slugRe (slugify parts).data = true ∨ slugify parts = "section" := by
  rw [slugify]
  rcases slugify_chars_ok
      ((("-".intercalate (parts.filter (fun p => p ≠ ""))).data.map
        (fun c => if c = '–' || c = '—' then '-' else c)).map asciiLower) with h | h
  · rw [h]
    exact Or.inr rfl
  · have hne : ¬ (pyStripList (fun c => c = '-')
        (squeezeDashes (squeezeDashes
          (((("-".intercalate (parts.filter (fun p => p ≠ ""))).data.map
            (fun c => if c = '–' || c = '—' then '-' else c)).map asciiLower).map
              (fun c => if isSlugAl c then c else '-'))))).isEmpty = true := by
      intro hemp
      rw [List.isEmpty_iff] at hemp
      rw [hemp] at h
      simp [slugRe] at h
    rw [if_neg hne]
    exact Or.inl h

/-! ## 10. Slug allocator: freshness and the empty-base corner -/

theorem findSuffix_not_mem (base : String) (used : Finset String) :
    ∀ fuel k, (∃ j < fuel, slugCandidate base (k + j) ∉ used) →
      findSuffix base used fuel k ∉ used := by
  intro fuel
  induction fuel with
  | zero => intro k h; simp at h
  | succ fuel ih =>
    intro k h
    rw [findSuffix]
    by_cases hc : slugCandidate base k ∈ used
    · rw [if_pos hc]
      apply ih
      obtain ⟨j, hj, hnot⟩ := h
      cases j with
      | zero => exact absurd hc (by simpa using hnot)
      | succ j' =>
        refine ⟨j', by omega, ?_⟩
        have harith : k + 1 + j' = k + (j' + 1) := by omega
        rw [harith]
        exact hnot
    · rw [if_neg hc]
      exact hc

theorem exists_free_suffix (base : String) (used : Finset String) (k : ℕ) :
    ∃ j < used.card + 1, slugCandidate base (k + j) ∉ used := by
  by_contra hall
  push_neg at hall
  have hinj : Function.Injective (fun j : ℕ => slugCandidate base (k + j)) := by
    intro a b h
    have := slugCandidate_inj base h
    omega
  have hsub : (Finset.range (used.card + 1)).image (fun j => slugCandidate base (k + j)) ⊆
      used := by
    intro x hx
    obtain ⟨j, hj, rfl⟩ := Finset.mem_image.mp hx
    exact hall j (Finset.mem_range.mp hj)
  have hcard := Finset.card_le_card hsub
  rw [Finset.card_image_of_injective _ hinj, Finset.card_range] at hcard
  omega

theorem unique_slug_fst_not_mem (base : String) (used : Finset String) :
    (unique_slug base used).1 ∉ used := by
  rw [unique_slug]
  by_cases h : (if base = "" then "section" else base) ∈ used
  · rw [if_pos h]
    exact findSuffix_not_mem base used _ 2 (exists_free_suffix base used 2)
  · rw [if_neg h]
    exact h

theorem unique_slug_snd (base : String) (used : Finset String) :
    (unique_slug base used).2 = insert (unique_slug base used).1 used := by
  rw [unique_slug]
  by_cases h : (if base = "" then "section" else base) ∈ used
  · rw [if_pos h]
  · rw [if_neg h]

/-- C7: `unique_slug` returns a value not in the set as it stood at call time and
registers that value in the set; hence two successive calls with the same base
against the same (threaded) set return distinct slugs. -/
theorem spec_C7 (base : String) (used : Finset String) :
    (unique_slug base used).1 ∉ used ∧
    (unique_slug base used).2 = insert (unique_slug base used).1 used ∧
    (unique_slug base (unique_slug base used).2).1 ≠ (unique_slug base used).1 := by
  refine ⟨unique_slug_fst_not_mem base used, unique_slug_snd base used, ?_⟩
  have h2 := unique_slug_fst_not_mem base (unique_slug base used).2
  rw [unique_slug_snd base used] at h2
  intro heq
  rw [unique_slug_snd base used] at heq
  apply h2
  rw [heq]
  exact Finset.mem_insert_self _ _

theorem findSuffix_form (base : String) (used : Finset String) :
    ∀ fuel k, ∃ j, k ≤ j ∧ findSuffix base used fuel k = slugCandidate base j := by
  intro fuel
  induction fuel with
  | zero => intro k; exact ⟨k, le_refl k, rfl⟩
  | succ fuel ih =>
    intro k
    rw [findSuffix]
    by_cases hc : slugCandidate base k ∈ used
    · rw [if_pos hc]
      obtain ⟨j, hj, hej⟩ := ih (k + 1)
      exact ⟨j, by omega, hej⟩
    · rw [if_neg hc]
      exact ⟨k, le_refl k, rfl⟩

/-- C10: for the empty base, `unique_slug` returns `"section"` when `"section"`
is free, but when `"section"` is already taken it falls back to suffixing the
*empty* base, returning a string `"-N"` that begins with a hyphen — so the slug
format invariant relies on every base being a non-empty `slugify` result. -/
theorem spec_C10 (used : Finset String) :
    ("section" ∉ used → (unique_slug "" used).1 = "section") ∧
    ("section" ∈ used → ∃ n : ℕ, 2 ≤ n ∧ (unique_slug "" used).1 = "-" ++ natRepr n ∧
      (unique_slug "" used).1.data.head? = some '-') := by
  constructor
  · intro h
    rw [unique_slug]
    rw [if_neg (by simpa using h)]
    rfl
  · intro h
    rw [unique_slug]
    rw [if_pos (by simpa using h)]
    obtain ⟨j, hj, hej⟩ := findSuffix_form "" used (used.card + 1) 2
    refine ⟨j, hj, ?_, ?_⟩
    · show findSuffix "" used (used.card + 1) 2 = "-" ++ natRepr j
      rw [hej]
      show ("" : String) ++ "-" ++ natRepr j = "-" ++ natRepr j
      rfl
    · show (findSuffix "" used (used.card + 1) 2).data.head? = some '-'
      rw [hej]
      show (("" : String) ++ "-" ++ natRepr j).data.head? = some '-'
      rfl

/-- Witness for C10 at concrete tracking sets. -/
theorem spec_C10_witness :
    (unique_slug "" (∅ : Finset String)).1 = "section" ∧
    (∃ n : ℕ, 2 ≤ n ∧ (unique_slug "" ({"section"} : Finset String)).1 = "-" ++ natRepr n ∧
      (unique_slug "" ({"section"} : Finset String)).1.data.head? = some '-') :=
  ⟨(spec_C10 ∅).1 (by simp), (spec_C10 {"section"}).2 (by simp)⟩

/-! ## 11. Escaping (C9) -/

theorem replaceAllChar_append (c : Char) (rep l1 l2 : List Char) :
    replaceAllChar c rep (l1 ++ l2) = replaceAllChar c rep l1 ++ replaceAllChar c rep l2 := by
  simp [replaceAllChar]

theorem escape_char_step (c : Char) :
    replaceAllChar '>' "&gt;".data (replaceAllChar '<' "&lt;".data
      (replaceAllChar '&' "&amp;".data [c])) = escapeCharSpec c := by
  by_cases h1 : c = '&'
  · subst h1; rfl
  by_cases h2 : c = '<'
  · subst h2; rfl
  by_cases h3 : c = '>'
  · subst h3; rfl
  simp [replaceAllChar, escapeCharSpec, h1, h2, h3]

theorem escape_data_eq (l : List Char) :
    replaceAllChar '>' "&gt;".data (replaceAllChar '<' "&lt;".data
      (replaceAllChar '&' "&amp;".data l)) = l.flatMap escapeCharSpec := by
  induction l with
  | nil => rfl
  | cons c t ih =>
    have hsplit : (c :: t) = [c] ++ t := rfl
    rw [hsplit, replaceAllChar_append, replaceAllChar_append, replaceAllChar_append,
      ih, escape_char_step c]
    simp

/-- C9: the HTML escaping replaces only `&`, `<` and `>`, leaving double and
single quotes unchanged; in particular a double quote inside a model slug or
model title is emitted verbatim inside the double-quoted `data-value`/`value`
attributes of the generated option tag. -/
theorem spec_C9 :
    (∀ s : String, escape s = String.mk (s.data.flatMap escapeCharSpec)) ∧
    escapeCharSpec '"' = ['"'] ∧ escapeCharSpec '\'' = ['\''] ∧
    render_datalist_options [quoteSection] =
      "              <option data-value=\"all\" value=\"All models\"></option>\n              <option data-value=\"a\"b\" value=\"T\"t\"></option>" := by
  refine ⟨?_, rfl, rfl, by decide⟩
  intro s
  rw [escape]
  rw [escape_data_eq]

/-! ## 12. The C3 scenario (corrected: the section title is `"Civic 11th"`) -/

/-- C3 counterexample: on the scenario row the extracted generation is `"11th"`,
but `format_section_title` yields `"Civic 11th"`, not the claimed
`"Civic (11th)"` (the pattern on line 206 allows at most one letter after the
digits, and `"th"` has two). -/
theorem spec_C3_cex :
    extract_generation "Civic" "11th Gen" "2022" = "11th" ∧
    format_section_title "Civic" (extract_generation "Civic" "11th Gen" "2022") = "Civic 11th" ∧
    format_section_title "Civic" (extract_generation "Civic" "11th Gen" "2022") ≠
      "Civic (11th)" := by
  refine ⟨by decide, by decide, by decide⟩

/-- C3 amended: the scenario row produces job `"Oil Change"`, interval `"—"`,
price `"£150"`, generation `"11th"`, and section title `"Civic 11th"` (the
combination title appends the variant heading, which includes the years). -/
theorem spec_C3_amended :
    format_job "Fluids" "Oil" = "Oil Change" ∧
    format_interval "" "" = "—" ∧
    format_price (currencySymbol "GBP") "150" = "£150" ∧
    extract_generation "Civic" "11th Gen" "2022" = "11th" ∧
    format_section_title "Civic" "11th" = "Civic 11th" ∧
    (build_sections [c3row]).map
      (fun s => (s.model_title, s.title, s.rows.map (fun fr => (fr.job, fr.interval, fr.price)))) =
      [("Civic 11th", "Civic 11th — Gen (2022)", [("Oil Change", "—", "£150")])] := by
  refine ⟨by decide, by decide, by decide, by decide, by decide, by decide⟩

/-! ## 13. Price formatting (C4, corrected: integral magnitudes bypass
`format_number`) -/

/-- C4 counterexample: `"12000"` parses to the integral value 12000, for which
`format_number` yields `"12k"`, yet `format_price` yields `"£12000"` — the
integral branch (line 172) uses `int(number)` directly and never applies
`format_number`. -/
theorem spec_C4_cex :
    parseFloat (stripCommas (pyStrip "12000")) = some ⟨12000, 0⟩ ∧
    format_number ⟨12000, 0⟩ = "12k" ∧
    format_price (currencySymbol "GBP") "12000" = "£12000" ∧
    format_price (currencySymbol "GBP") "12000" ≠
      currencySymbol "GBP" ++ format_number ⟨12000, 0⟩ := by
  refine ⟨by decide, by decide, by decide, by decide⟩

/-- C4 amended: for every input string whose comma-stripped trimmed form parses
as a number, `format_price` returns the configured currency symbol
(GBP→£, USD→$, EUR→€, otherwise the code plus a space) followed by the
magnitude, where an integral value is rendered as a plain integer (`str(int)`,
without `format_number`'s `"k"` compression) and only a non-integral value is
rendered via `format_number`. -/
theorem spec_C4_amended (currency s : String) (q : Dec)
    (h : parseFloat (stripCommas (pyStrip s)) = some q) :
    format_price (currencySymbol currency) s =
      currencySymbol currency ++ (if q.isInt then intRepr q.toInt else format_number q) := by
  have hne : pyStrip s ≠ "" := by
    intro hb
    rw [hb] at h
    rw [show parseFloat (stripCommas "") = none from rfl] at h
    exact Option.noConfusion h
  rw [format_price]
  show (if pyStrip s = "" then "POA"
    else match parseFloat (stripCommas (pyStrip s)) with
      | none => pyStrip s
      | some number =>
        if number.isInt = true then currencySymbol currency ++ intRepr number.toInt
        else currencySymbol currency ++ format_number number) = _
  rw [if_neg hne, h]
  by_cases hint : q.isInt = true <;> simp [hint]

/-- Witness for C4 at `"1,234.50"` (non-integral) — the hypothesis is discharged
by evaluation. -/
theorem spec_C4_witness :
    parseFloat (stripCommas (pyStrip "1,234.50")) = some ⟨123450, 2⟩ ∧
    format_price (currencySymbol "GBP") "1,234.50" =
      currencySymbol "GBP" ++
        (if Dec.isInt ⟨123450, 2⟩ then intRepr (Dec.toInt ⟨123450, 2⟩)
         else format_number ⟨123450, 2⟩) :=
  ⟨by decide, spec_C4_amended "GBP" "1,234.50" ⟨123450, 2⟩ (by decide)⟩

/-! ## 14. Section titles and dashes (C5, corrected: only en dashes are
normalised) -/

/-- C5 counterexample: for `"2019—2021"` (em dash) the claim's hypotheses hold —
the generation is non-blank, differs from the model, and matches the
digits-range pattern once en *and* em dashes are normalised — yet
`format_section_title` does not parenthesise: line 200 replaces only en dashes,
so the em-dash range falls through to `"Civic 2019—2021"`. -/
theorem spec_C5_cex :
    pyStrip "2019—2021" ≠ "" ∧
    pyLower (pyStrip "2019—2021") ≠ pyLower (pyStrip "Civic") ∧
    fullmatchGenRange ((pyStrip "2019—2021").data.map
      (fun c => if c = '–' || c = '—' then '-' else c)) = true ∧
    format_section_title "Civic" "2019—2021" = "Civic 2019—2021" ∧
    format_section_title "Civic" "2019—2021" ≠ "Civic (2019—2021)" := by
  refine ⟨by decide, by decide, by decide, by decide, by decide⟩

/-- C5 amended: for every model and every generation whose trimmed form is
non-blank, differs from the trimmed model case-insensitively, and — after
normalising *en* dashes only (em dashes are left alone by line 200) — matches a
bare 2-4 digit token or a digits-digits range, `format_section_title` returns
`"{model} ({generation})"` on the trimmed values. -/
theorem spec_C5_amended (model generation : String)
    (hne : pyStrip generation ≠ "")
    (hdiff : pyLower (pyStrip generation) ≠ pyLower (pyStrip model))
    (hmatch : fullmatchGenRange ((pyStrip generation).data.map
      (fun c => if c = '–' then '-' else c)) = true) :
    format_section_title model generation =
      pyStrip model ++ " (" ++ pyStrip generation ++ ")" := by
  rw [format_section_title]
  rw [if_neg (not_or.mpr ⟨hne, hdiff⟩), if_pos hmatch]

/-- Witness for C5 with an en-dash range — the hypotheses are discharged by
evaluation. -/
theorem spec_C5_witness :
    (pyStrip "2019–2021" ≠ "" ∧
      pyLower (pyStrip "2019–2021") ≠ pyLower (pyStrip "Civic") ∧
      fullmatchGenRange ((pyStrip "2019–2021").data.map
        (fun c => if c = '–' then '-' else c)) = true) ∧
    format_section_title "Civic" "2019–2021" =
      pyStrip "Civic" ++ " (" ++ pyStrip "2019–2021" ++ ")" :=
  ⟨⟨by decide, by decide, by decide⟩,
    spec_C5_amended "Civic" "2019–2021" (by decide) (by decide) (by decide)⟩

/-! ## 15. Unrecognised headers abort the run (C8) -/

theorem dictSet_fst_mem (d : Row) (k v : String) {a : String}
    (h : a ∈ (dictSet d k v).map Prod.fst) : a ∈ d.map Prod.fst ∨ a = k := by
  rw [dictSet] at h
  by_cases hp : d.any (fun kv => kv.1 = k) = true
  · rw [if_pos hp, List.map_map] at h
    obtain ⟨kv, hkv, hE⟩ := List.mem_map.mp h
    by_cases he : kv.1 = k
    · right
      rw [← hE]
      simp [Function.comp, he]
    · left
      refine List.mem_map.mpr ⟨kv, hkv, ?_⟩
      rw [← hE]
      simp [Function.comp, he]
  · rw [if_neg hp, List.map_append] at h
    rcases List.mem_append.mp h with h1 | h1
    · exact Or.inl h1
    · right
      simpa using h1

theorem foldl_dictSet_fst_mem : ∀ (ps : List (String × String)) (acc : Row) (a : String),
    a ∈ ((ps.foldl (fun d kv => dictSet d kv.1 kv.2) acc).map Prod.fst) →
    a ∈ acc.map Prod.fst ∨ a ∈ ps.map Prod.fst := by
  intro ps
  induction ps with
  | nil => intro acc a h; exact Or.inl h
  | cons kv ps ih =>
    intro acc a h
    rw [List.foldl_cons] at h
    rcases ih _ a h with h' | h'
    · rcases dictSet_fst_mem acc kv.1 kv.2 h' with h'' | h''
      · exact Or.inl h''
      · right; simp [h'']
    · right; simp [h']

theorem dictOfPairs_fst_mem (ps : List (String × String)) (a : String)
    (h : a ∈ (dictOfPairs ps).map Prod.fst) : a ∈ ps.map Prod.fst := by
  rcases foldl_dictSet_fst_mem ps [] a h with h' | h'
  · simp at h'
  · exact h'

/-- Every key seen in a normalized row comes from the lower-cased trimmed
headers. -/
theorem availableKeys_sub (records : List (List String)) (k : String)
    (h : k ∈ availableKeys (parse_csv records).2.2) :
    k ∈ (parse_csv records).1.map pyLower := by
  match records with
  | [] => simp [parse_csv, availableKeys] at h
  | r0 :: rest =>
    simp only [parse_csv, availableKeys] at h ⊢
    obtain ⟨r, hr, hkr⟩ := List.mem_flatMap.mp h
    obtain ⟨rr, hrr, rfl⟩ := List.mem_map.mp hr
    have hz := dictOfPairs_fst_mem _ k hkr
    obtain ⟨⟨k1, v1⟩, hzm, rfl⟩ := List.mem_map.mp hz
    exact (List.of_mem_zip hzm).1

/-- C8: when the CSV has at least one non-blank data row and its lower-cased
header set contains neither all structured keys nor all legacy keys, the run
fails with the fatal "headers not recognised" error and no output (HTML or JSON)
is produced. -/
theorem spec_C8 (records : List (List String)) (html_src : String)
    (hrows : (parse_csv records).2.1 ≠ [])
    (hstr : ¬ ∀ k ∈ structuredKeys, k ∈ (parse_csv records).1.map pyLower)
    (hleg : ¬ ∀ k ∈ legacyKeys, k ∈ (parse_csv records).1.map pyLower) :
    runPipeline records html_src =
      Except.error "CSV headers not recognised; cannot build price list" := by
  have hstr' : ¬ structuredKeys.all
      (fun k => (availableKeys (parse_csv records).2.2).contains k) = true := by
    intro hall
    apply hstr
    intro k hk
    have hc := List.all_eq_true.mp hall k hk
    exact availableKeys_sub records k (by simpa using hc)
  have hleg' : ¬ legacyKeys.all
      (fun k => (availableKeys (parse_csv records).2.2).contains k) = true := by
    intro hall
    apply hleg
    intro k hk
    have hc := List.all_eq_true.mp hall k hk
    exact availableKeys_sub records k (by simpa using hc)
  rw [runPipeline]
  show (if ((parse_csv records).2.1).isEmpty = true then Except.ok RunResult.noData
    else
      if structuredKeys.all
          (fun k => (availableKeys (parse_csv records).2.2).contains k) = true then _
      else if legacyKeys.all
          (fun k => (availableKeys (parse_csv records).2.2).contains k) = true then _
      else Except.error "CSV headers not recognised; cannot build price list") = _
  rw [if_neg (by simpa [List.isEmpty_iff] using hrows), if_neg hstr', if_neg hleg']

/-- Witness for C8 at a concrete unrecognised header set. -/
theorem spec_C8_witness :
    ((parse_csv badRecords).2.1 ≠ [] ∧
      (¬ ∀ k ∈ structuredKeys, k ∈ (parse_csv badRecords).1.map pyLower) ∧
      (¬ ∀ k ∈ legacyKeys, k ∈ (parse_csv badRecords).1.map pyLower)) ∧
    runPipeline badRecords "<html></html>" =
      Except.error "CSV headers not recognised; cannot build price list" :=
  ⟨⟨by decide, by decide, by decide⟩,
    spec_C8 badRecords "<html></html>" (by decide) (by decide) (by decide)⟩

/-! ## 16. The grouping engine: ordered-dict semantics -/

theorem mkeysFirstOcc_snoc (p : List Row) (r : Row) :
    mkeysFirstOcc (p ++ [r]) =
      if rowQual r ∧ rowMKey r ∉ mkeysFirstOcc p then mkeysFirstOcc p ++ [rowMKey r]
      else mkeysFirstOcc p := by
  simp [mkeysFirstOcc, List.foldl_append]

theorem vkeysFirstOcc_snoc (p : List Row) (r : Row) (mk : MKey) :
    vkeysFirstOcc (p ++ [r]) mk =
      if rowQual r ∧ rowMKey r = mk ∧ rowVKey r ∉ vkeysFirstOcc p mk then
        vkeysFirstOcc p mk ++ [rowVKey r]
      else vkeysFirstOcc p mk := by
  simp [vkeysFirstOcc, List.foldl_append]

theorem rowsFor_snoc (p : List Row) (r : Row) (mk : MKey) (vk : VKey) :
    rowsFor (p ++ [r]) mk vk =
      rowsFor p mk vk ++
        (if rowQual r ∧ rowMKey r = mk ∧ rowVKey r = vk then [r] else []) := by
  rw [rowsFor, rowsFor, List.filter_append]
  congr 1
  by_cases h : rowQual r ∧ rowMKey r = mk ∧ rowVKey r = vk
  · rw [if_pos h]
    simp [List.filter, h.1, h.2.1, h.2.2]
  · rw [if_neg h]
    by_cases h1 : rowQual r = true
    · by_cases h2 : rowMKey r = mk
      · by_cases h3 : rowVKey r = vk
        · exact absurd ⟨h1, h2, h3⟩ h
        · simp [List.filter, h1, h2, h3]
      · simp [List.filter, h1, h2]
    · simp [List.filter, h1]

theorem mkeysFirstOcc_nodup (rows : List Row) : (mkeysFirstOcc rows).Nodup := by
  suffices h : ∀ (l : List Row) (ks : List MKey), ks.Nodup →
      (l.foldl (fun ks r => if rowQual r ∧ rowMKey r ∉ ks then ks ++ [rowMKey r] else ks)
        ks).Nodup by
    exact h rows [] List.nodup_nil
  intro l
  induction l with
  | nil => intro ks h; exact h
  | cons r l ih =>
    intro ks h
    rw [List.foldl_cons]
    by_cases hc : rowQual r ∧ rowMKey r ∉ ks
    · rw [if_pos hc]
      refine ih _ ?_
      simp [List.nodup_append, h, hc.2]
    · rw [if_neg hc]
      exact ih ks h

theorem vkeysFirstOcc_nodup (rows : List Row) (mk : MKey) : (vkeysFirstOcc rows mk).Nodup := by
  suffices h : ∀ (l : List Row) (ks : List VKey), ks.Nodup →
      (l.foldl (fun ks r =>
        if rowQual r ∧ rowMKey r = mk ∧ rowVKey r ∉ ks then ks ++ [rowVKey r] else ks)
        ks).Nodup by
    exact h rows [] List.nodup_nil
  intro l
  induction l with
  | nil => intro ks h; exact h
  | cons r l ih =>
    intro ks h
    rw [List.foldl_cons]
    by_cases hc : rowQual r ∧ rowMKey r = mk ∧ rowVKey r ∉ ks
    · rw [if_pos hc]
      refine ih _ ?_
      simp [List.nodup_append, h, hc.2.2]
    · rw [if_neg hc]
      exact ih ks h

theorem mkeysFirstOcc_mem (rows : List Row) (mk : MKey) :
    mk ∈ mkeysFirstOcc rows ↔ ∃ r ∈ rows, rowQual r = true ∧ rowMKey r = mk := by
  suffices h : ∀ (l : List Row) (ks : List MKey),
      (mk ∈ l.foldl
        (fun ks r => if rowQual r ∧ rowMKey r ∉ ks then ks ++ [rowMKey r] else ks) ks ↔
      mk ∈ ks ∨ ∃ r ∈ l, rowQual r = true ∧ rowMKey r = mk) by
    rw [mkeysFirstOcc, h rows []]
    simp
  intro l
  induction l with
  | nil => intro ks; simp
  | cons r l ih =>
    intro ks
    rw [List.foldl_cons]
    by_cases hc : rowQual r ∧ rowMKey r ∉ ks
    · rw [if_pos hc, ih]
      constructor
      · rintro (hk | hk)
        · rcases List.mem_append.mp hk with hk | hk
          · exact Or.inl hk
          · have hmk : mk = rowMKey r := by simpa using hk
            exact Or.inr ⟨r, by simp, hc.1, hmk.symm⟩
        · obtain ⟨x, hx, hq, he⟩ := hk
          exact Or.inr ⟨x, by simp [hx], hq, he⟩
      · rintro (hk | ⟨x, hx, hq, he⟩)
        · exact Or.inl (List.mem_append_left _ hk)
        · rcases List.mem_cons.mp hx with rfl | hx
          · exact Or.inl (List.mem_append_right _ (by simp [he]))
          · exact Or.inr ⟨x, hx, hq, he⟩
    · rw [if_neg hc, ih]
      constructor
      · rintro (hk | hk)
        · exact Or.inl hk
        · obtain ⟨x, hx, hq, he⟩ := hk
          exact Or.inr ⟨x, by simp [hx], hq, he⟩
      · rintro (hk | ⟨x, hx, hq, he⟩)
        · exact Or.inl hk
        · rcases List.mem_cons.mp hx with rfl | hx
          · left
            rcases Decidable.not_and_iff_or_not.mp hc with h1 | h1
            · exact absurd hq (by simpa using h1)
            · rw [← he]
              simpa using h1
          · exact Or.inr ⟨x, hx, hq, he⟩

theorem vkeysFirstOcc_mem (rows : List Row) (mk : MKey) (vk : VKey) :
    vk ∈ vkeysFirstOcc rows mk ↔
      ∃ r ∈ rows, rowQual r = true ∧ rowMKey r = mk ∧ rowVKey r = vk := by
  suffices h : ∀ (l : List Row) (ks : List VKey),
      (vk ∈ l.foldl
        (fun ks r =>
          if rowQual r ∧ rowMKey r = mk ∧ rowVKey r ∉ ks then ks ++ [rowVKey r] else ks) ks ↔
      vk ∈ ks ∨ ∃ r ∈ l, rowQual r = true ∧ rowMKey r = mk ∧ rowVKey r = vk) by
    rw [vkeysFirstOcc, h rows []]
    simp
  intro l
  induction l with
  | nil => intro ks; simp
  | cons r l ih =>
    intro ks
    rw [List.foldl_cons]
    by_cases hc : rowQual r ∧ rowMKey r = mk ∧ rowVKey r ∉ ks
    · rw [if_pos hc, ih]
      constructor
      · rintro (hk | hk)
        · rcases List.mem_append.mp hk with hk | hk
          · exact Or.inl hk
          · have hvk : vk = rowVKey r := by simpa using hk
            exact Or.inr ⟨r, by simp, hc.1, hc.2.1, hvk.symm⟩
        · obtain ⟨x, hx, hq, hm, he⟩ := hk
          exact Or.inr ⟨x, by simp [hx], hq, hm, he⟩
      · rintro (hk | ⟨x, hx, hq, hm, he⟩)
        · exact Or.inl (List.mem_append_left _ hk)
        · rcases List.mem_cons.mp hx with rfl | hx
          · exact Or.inl (List.mem_append_right _ (by simp [he]))
          · exact Or.inr ⟨x, hx, hq, hm, he⟩
    · rw [if_neg hc, ih]
      constructor
      · rintro (hk | hk)
        · exact Or.inl hk
        · obtain ⟨x, hx, hq, hm, he⟩ := hk
          exact Or.inr ⟨x, by simp [hx], hq, hm, he⟩
      · rintro (hk | ⟨x, hx, hq, hm, he⟩)
        · exact Or.inl hk
        · rcases List.mem_cons.mp hx with rfl | hx
          · left
            rcases Decidable.not_and_iff_or_not.mp hc with h1 | h1
            · exact absurd hq (by simpa using h1)
            · rcases Decidable.not_and_iff_or_not.mp h1 with h2 | h2
              · exact absurd hm h2
              · rw [← he]
                simpa using h2
          · exact Or.inr ⟨x, hx, hq, hm, he⟩

theorem vkeysFirstOcc_of_not_mkey (rows : List Row) (mk : MKey)
    (h : mk ∉ mkeysFirstOcc rows) : vkeysFirstOcc rows mk = [] := by
  cases hv : vkeysFirstOcc rows mk with
  | nil => rfl
  | cons vk vks =>
    exfalso
    have hvk : vk ∈ vkeysFirstOcc rows mk := by rw [hv]; simp
    obtain ⟨r, hr, hq, hm, _⟩ := (vkeysFirstOcc_mem rows mk vk).mp hvk
    exact h ((mkeysFirstOcc_mem rows mk).mpr ⟨r, hr, hq, hm⟩)

theorem rowsFor_of_not_mkey (rows : List Row) (mk : MKey) (vk : VKey)
    (h : mk ∉ mkeysFirstOcc rows) : rowsFor rows mk vk = [] := by
  cases hv : rowsFor rows mk vk with
  | nil => rfl
  | cons r rs =>
    exfalso
    have hr : r ∈ rowsFor rows mk vk := by rw [hv]; simp
    rw [rowsFor] at hr
    have hmem := List.mem_of_mem_filter hr
    have hpred := List.of_mem_filter hr
    simp only [Bool.and_eq_true, decide_eq_true_eq] at hpred
    exact h ((mkeysFirstOcc_mem rows mk).mpr ⟨r, hmem, hpred.1.1, hpred.1.2⟩)

theorem rowsFor_of_not_vkey (rows : List Row) (mk : MKey) (vk : VKey)
    (h : vk ∉ vkeysFirstOcc rows mk) : rowsFor rows mk vk = [] := by
  cases hv : rowsFor rows mk vk with
  | nil => rfl
  | cons r rs =>
    exfalso
    have hr : r ∈ rowsFor rows mk vk := by rw [hv]; simp
    rw [rowsFor] at hr
    have hmem := List.mem_of_mem_filter hr
    have hpred := List.of_mem_filter hr
    simp only [Bool.and_eq_true, decide_eq_true_eq] at hpred
    exact h ((vkeysFirstOcc_mem rows mk vk).mpr
      ⟨r, hmem, hpred.1.1, hpred.1.2, hpred.2⟩)

theorem insertVar_fst (vk : VKey) (r : Row) :
    ∀ vs : List (VKey × List Row),
      (insertVar vk r vs).map Prod.fst =
        if vk ∈ vs.map Prod.fst then vs.map Prod.fst else vs.map Prod.fst ++ [vk] := by
  intro vs
  induction vs with
  | nil => simp [insertVar]
  | cons kv rest ih =>
    obtain ⟨k, es⟩ := kv
    rw [insertVar]
    by_cases hk : k = vk
    · rw [if_pos hk]
      simp [hk]
    · rw [if_neg hk]
      simp only [List.map_cons, ih]
      by_cases hm : vk ∈ rest.map Prod.fst
      · rw [if_pos hm, if_pos (by simp [hm])]
      · rw [if_neg hm, if_neg (by
          simp only [List.mem_cons]
          rintro (h | h)
          · exact hk h.symm
          · exact hm h)]
        simp

theorem insertVar_mem (vk : VKey) (r : Row) :
    ∀ vs : List (VKey × List Row), (vs.map Prod.fst).Nodup →
      ∀ vk' es', (vk', es') ∈ insertVar vk r vs →
        (vk' ≠ vk ∧ (vk', es') ∈ vs) ∨
        (vk' = vk ∧ ((vk ∉ vs.map Prod.fst ∧ es' = [r]) ∨
          (∃ es, (vk, es) ∈ vs ∧ es' = es ++ [r]))) := by
  intro vs
  induction vs with
  | nil =>
    intro _ vk' es' h
    rw [insertVar] at h
    have h' : (vk', es') = (vk, [r]) := List.mem_singleton.mp h
    have h1 : vk' = vk := congrArg Prod.fst h'
    have h2 : es' = [r] := congrArg Prod.snd h'
    subst h1
    exact Or.inr ⟨rfl, Or.inl ⟨by simp, h2⟩⟩
  | cons kv rest ih =>
    obtain ⟨k, es⟩ := kv
    intro hnod vk' es' h
    rw [insertVar] at h
    by_cases hk : k = vk
    · subst hk
      rw [if_pos rfl] at h
      rcases List.mem_cons.mp h with h' | h'
      · have h1 : vk' = k := congrArg Prod.fst h'
        have h2 : es' = es ++ [r] := congrArg Prod.snd h'
        subst h1
        exact Or.inr ⟨rfl, Or.inr ⟨es, by simp, h2⟩⟩
      · by_cases hv : vk' = k
        · subst hv
          exfalso
          have : vk' ∈ rest.map Prod.fst := List.mem_map_of_mem Prod.fst h'
          simp only [List.map_cons, List.nodup_cons] at hnod
          exact hnod.1 this
        · exact Or.inl ⟨hv, List.mem_cons_of_mem _ h'⟩
    · rw [if_neg hk] at h
      rcases List.mem_cons.mp h with h' | h'
      · have h1 : vk' = k := congrArg Prod.fst h'
        have h2 : es' = es := congrArg Prod.snd h'
        subst h1 h2
        exact Or.inl ⟨hk, by simp⟩
      · have hnod' : (rest.map Prod.fst).Nodup := by
          simp only [List.map_cons, List.nodup_cons] at hnod
          exact hnod.2
        rcases ih hnod' vk' es' h' with ⟨hne, hmem⟩ | ⟨rfl, hcase⟩
        · exact Or.inl ⟨hne, List.mem_cons_of_mem _ hmem⟩
        · refine Or.inr ⟨rfl, ?_⟩
          rcases hcase with ⟨hnm, hes⟩ | ⟨es0, hes0, hes⟩
          · refine Or.inl ⟨?_, hes⟩
            simp only [List.map_cons, List.mem_cons]
            rintro (h | h)
            · exact hk h.symm
            · exact hnm h
          · exact Or.inr ⟨es0, List.mem_cons_of_mem _ hes0, hes⟩

theorem insertRow_fst (mk : MKey) (vk : VKey) (r : Row) :
    ∀ g : Grouped,
      (insertRow mk vk r g).map Prod.fst =
        if mk ∈ g.map Prod.fst then g.map Prod.fst else g.map Prod.fst ++ [mk] := by
  intro g
  induction g with
  | nil => simp [insertRow]
  | cons kv rest ih =>
    obtain ⟨k, vs⟩ := kv
    rw [insertRow]
    by_cases hk : k = mk
    · rw [if_pos hk]
      simp [hk]
    · rw [if_neg hk]
      simp only [List.map_cons, ih]
      by_cases hm : mk ∈ rest.map Prod.fst
      · rw [if_pos hm, if_pos (by simp [hm])]
      · rw [if_neg hm, if_neg (by
          simp only [List.mem_cons]
          rintro (h | h)
          · exact hk h.symm
          · exact hm h)]
        simp

theorem insertRow_mem (mk : MKey) (vk : VKey) (r : Row) :
    ∀ g : Grouped, (g.map Prod.fst).Nodup →
      ∀ mk' vs', (mk', vs') ∈ insertRow mk vk r g →
        (mk' ≠ mk ∧ (mk', vs') ∈ g) ∨
        (mk' = mk ∧ ((mk ∉ g.map Prod.fst ∧ vs' = [(vk, [r])]) ∨
          (∃ vs, (mk, vs) ∈ g ∧ vs' = insertVar vk r vs))) := by
  intro g
  induction g with
  | nil =>
    intro _ mk' vs' h
    rw [insertRow] at h
    have h' : (mk', vs') = (mk, [(vk, [r])]) := List.mem_singleton.mp h
    have h1 : mk' = mk := congrArg Prod.fst h'
    have h2 : vs' = [(vk, [r])] := congrArg Prod.snd h'
    subst h1
    exact Or.inr ⟨rfl, Or.inl ⟨by simp, h2⟩⟩
  | cons kv rest ih =>
    obtain ⟨k, vs⟩ := kv
    intro hnod mk' vs' h
    rw [insertRow] at h
    by_cases hk : k = mk
    · subst hk
      rw [if_pos rfl] at h
      rcases List.mem_cons.mp h with h' | h'
      · have h1 : mk' = k := congrArg Prod.fst h'
        have h2 : vs' = insertVar vk r vs := congrArg Prod.snd h'
        subst h1
        exact Or.inr ⟨rfl, Or.inr ⟨vs, by simp, h2⟩⟩
      · by_cases hv : mk' = k
        · subst hv
          exfalso
          have : mk' ∈ rest.map Prod.fst := List.mem_map_of_mem Prod.fst h'
          simp only [List.map_cons, List.nodup_cons] at hnod
          exact hnod.1 this
        · exact Or.inl ⟨hv, List.mem_cons_of_mem _ h'⟩
    · rw [if_neg hk] at h
      rcases List.mem_cons.mp h with h' | h'
      · have h1 : mk' = k := congrArg Prod.fst h'
        have h2 : vs' = vs := congrArg Prod.snd h'
        subst h1 h2
        exact Or.inl ⟨hk, by simp⟩
      · have hnod' : (rest.map Prod.fst).Nodup := by
          simp only [List.map_cons, List.nodup_cons] at hnod
          exact hnod.2
        rcases ih hnod' mk' vs' h' with ⟨hne, hmem⟩ | ⟨rfl, hcase⟩
        · exact Or.inl ⟨hne, List.mem_cons_of_mem _ hmem⟩
        · refine Or.inr ⟨rfl, ?_⟩
          rcases hcase with ⟨hnm, hes⟩ | ⟨vs0, hvs0, hes⟩
          · refine Or.inl ⟨?_, hes⟩
            simp only [List.map_cons, List.mem_cons]
            rintro (h | h)
            · exact hk h.symm
            · exact hnm h
          · exact Or.inr ⟨vs0, List.mem_cons_of_mem _ hvs0, hes⟩

theorem groupInv_step (p : List Row) (g : Grouped) (r : Row) (hInv : GroupInv p g) :
    GroupInv (p ++ [r])
      (if rowQual r = true then insertRow (rowMKey r) (rowVKey r) r g else g) := by
  obtain ⟨hi, hii, hiii⟩ := hInv
  have hnod : (g.map Prod.fst).Nodup := by rw [hi]; exact mkeysFirstOcc_nodup p
  by_cases hq : rowQual r = true
  case neg =>
    rw [if_neg hq]
    refine ⟨?_, ?_, ?_⟩
    · rw [hi, mkeysFirstOcc_snoc, if_neg (fun h => hq h.1)]
    · intro mk vs hmem
      rw [vkeysFirstOcc_snoc, if_neg (fun h => hq h.1)]
      exact hii mk vs hmem
    · intro mk vs hmem vk es hes
      rw [rowsFor_snoc, if_neg (fun h => hq h.1), List.append_nil]
      exact hiii mk vs hmem vk es hes
  case pos =>
    rw [if_pos hq]
    refine ⟨?_, ?_, ?_⟩
    · rw [insertRow_fst, hi, mkeysFirstOcc_snoc]
      by_cases hm : rowMKey r ∈ mkeysFirstOcc p
      · rw [if_pos hm, if_neg (by rintro ⟨_, hh⟩; exact hh hm)]
      · rw [if_neg hm, if_pos ⟨hq, hm⟩]
    · intro mk vs hmem
      rcases insertRow_mem (rowMKey r) (rowVKey r) r g hnod mk vs hmem with
        ⟨hne, hold⟩ | ⟨rfl, hcase⟩
      · rw [vkeysFirstOcc_snoc, if_neg (by rintro ⟨_, heq, _⟩; exact hne heq.symm)]
        exact hii mk vs hold
      · rcases hcase with ⟨hnm, rfl⟩ | ⟨vs0, hvs0, rfl⟩
        · have hvempty : vkeysFirstOcc p (rowMKey r) = [] :=
            vkeysFirstOcc_of_not_mkey p (rowMKey r) (by rwa [← hi])
          rw [vkeysFirstOcc_snoc,
            if_pos ⟨hq, rfl, by rw [hvempty]; exact List.not_mem_nil _⟩, hvempty]
          simp
        · rw [insertVar_fst, hii (rowMKey r) vs0 hvs0, vkeysFirstOcc_snoc]
          by_cases hv : rowVKey r ∈ vkeysFirstOcc p (rowMKey r)
          · rw [if_pos hv, if_neg (by rintro ⟨_, _, hh⟩; exact hh hv)]
          · rw [if_neg hv, if_pos ⟨hq, rfl, hv⟩]
    · intro mk vs hmem vk es hes
      rcases insertRow_mem (rowMKey r) (rowVKey r) r g hnod mk vs hmem with
        ⟨hne, hold⟩ | ⟨rfl, hcase⟩
      · rw [rowsFor_snoc, if_neg (by rintro ⟨_, heq, _⟩; exact hne heq.symm),
          List.append_nil]
        exact hiii mk vs hold vk es hes
      · rcases hcase with ⟨hnm, rfl⟩ | ⟨vs0, hvs0, rfl⟩
        · have h' : (vk, es) = (rowVKey r, [r]) := List.mem_singleton.mp hes
          have h1 : vk = rowVKey r := congrArg Prod.fst h'
          have h2 : es = [r] := congrArg Prod.snd h'
          subst h1
          rw [rowsFor_snoc, if_pos ⟨hq, rfl, rfl⟩,
            rowsFor_of_not_mkey p (rowMKey r) (rowVKey r) (by rwa [← hi])]
          simpa using h2
        · have hvnod : (vs0.map Prod.fst).Nodup := by
            rw [hii (rowMKey r) vs0 hvs0]
            exact vkeysFirstOcc_nodup p (rowMKey r)
          rcases insertVar_mem (rowVKey r) r vs0 hvnod vk es hes with
            ⟨hne, holdv⟩ | ⟨rfl, hvcase⟩
          · rw [rowsFor_snoc, if_neg (by rintro ⟨_, _, heq⟩; exact hne heq.symm),
              List.append_nil]
            exact hiii (rowMKey r) vs0 hvs0 vk es holdv
          · rcases hvcase with ⟨hnm, rfl⟩ | ⟨es0, hes0, rfl⟩
            · rw [rowsFor_snoc, if_pos ⟨hq, rfl, rfl⟩,
                rowsFor_of_not_vkey p (rowMKey r) (rowVKey r)
                  (by rwa [hii (rowMKey r) vs0 hvs0] at hnm)]
              simp
            · rw [rowsFor_snoc, if_pos ⟨hq, rfl, rfl⟩,
                ← hiii (rowMKey r) vs0 hvs0 (rowVKey r) es0 hes0]

theorem groupInv_fold :
    ∀ (rows p : List Row) (g : Grouped), GroupInv p g →
      GroupInv (p ++ rows)
        (rows.foldl
          (fun acc r => if rowQual r then insertRow (rowMKey r) (rowVKey r) r acc else acc)
          g) := by
  intro rows
  induction rows with
  | nil => intro p g h; simpa using h
  | cons r rows ih =>
    intro p g h
    rw [List.foldl_cons]
    have hstep := groupInv_step p g r h
    have hrec := ih (p ++ [r]) _ hstep
    rwa [List.append_assoc, List.singleton_append] at hrec

/-- The grouping loop of `build_sections` computes exactly the ordered-dict view:
model-keys in first-occurrence order, variant-keys in first-occurrence order,
buckets holding the matching rows in input order. -/
theorem groupRows_inv (rows : List Row) : GroupInv rows (groupRows rows) := by
  have h := groupInv_fold rows [] [] ⟨rfl, by simp, by simp⟩
  simpa [groupRows] using h

/-! ## 17. The section-building pass -/

theorem buildVariantSections_data (model generation base_title model_slug : String) :
    ∀ (variants : List (VKey × List Row)) (u : Finset String),
      ((buildVariantSections model generation base_title model_slug variants u).1).map
        sectionData =
      variants.map (fun y => ((model, generation), y.1, y.2.map format_row)) := by
  intro variants
  induction variants with
  | nil => intro u; rfl
  | cons y rest ih =>
    obtain ⟨⟨variant, years, powertrain, transmission⟩, entries⟩ := y
    intro u
    simp only [buildVariantSections, List.map_cons]
    rw [ih]
    rfl

theorem buildModelSections_data :
    ∀ (g : Grouped) (uS uM : Finset String) (sm : List (MKey × String)),
      ((buildModelSections g uS uM sm).1).map sectionData =
        g.flatMap (fun x => x.2.map (fun y => (x.1, y.1, y.2.map format_row))) := by
  intro g
  induction g with
  | nil => intro uS uM sm; rfl
  | cons x rest ih =>
    obtain ⟨⟨model, generation⟩, variants⟩ := x
    intro uS uM sm
    simp only [buildModelSections]
    cases hlk : lookupMKey sm (model, generation) with
    | none =>
      simp only [hlk, List.map_append, List.flatMap_cons]
      rw [buildVariantSections_data, ih]
    | some s0 =>
      simp only [hlk, List.map_append, List.flatMap_cons]
      rw [buildVariantSections_data, ih]

theorem buildVariantSections_fields (model generation base_title model_slug : String) :
    ∀ (variants : List (VKey × List Row)) (u : Finset String) (s : Section),
      s ∈ (buildVariantSections model generation base_title model_slug variants u).1 →
      s.model_family = model ∧ s.generation = generation ∧
        s.model_slug = model_slug ∧ s.model_title = base_title := by
  intro variants
  induction variants with
  | nil => intro u s h; simp [buildVariantSections] at h
  | cons y rest ih =>
    obtain ⟨⟨variant, years, powertrain, transmission⟩, entries⟩ := y
    intro u s h
    simp only [buildVariantSections] at h
    rcases List.mem_cons.mp h with rfl | h'
    · exact ⟨rfl, rfl, rfl, rfl⟩
    · exact ih _ s h'

theorem buildVariantSections_slugs (model generation base_title model_slug : String) :
    ∀ (variants : List (VKey × List Row)) (u : Finset String),
      (∀ x ∈ u,
        x ∈ (buildVariantSections model generation base_title model_slug variants u).2) ∧
      (∀ s ∈ (buildVariantSections model generation base_title model_slug variants u).1,
        s.slug ∉ u ∧
        s.slug ∈ (buildVariantSections model generation base_title model_slug variants u).2) ∧
      (((buildVariantSections model generation base_title model_slug variants u).1).map
        Section.slug).Nodup := by
  intro variants
  induction variants with
  | nil =>
    intro u
    exact ⟨fun x h => h, by simp [buildVariantSections], by simp [buildVariantSections]⟩
  | cons y rest ih =>
    obtain ⟨⟨variant, years, powertrain, transmission⟩, entries⟩ := y
    intro u
    obtain ⟨ihmono, ihmem, ihnodup⟩ :=
      ih (unique_slug (slugify [model, generation, variant, years, powertrain, transmission])
        u).2
    have hfresh := unique_slug_fst_not_mem
      (slugify [model, generation, variant, years, powertrain, transmission]) u
    have hsnd := unique_slug_snd
      (slugify [model, generation, variant, years, powertrain, transmission]) u
    refine ⟨?_, ?_, ?_⟩
    · intro x hx
      simp only [buildVariantSections]
      refine ihmono x ?_
      rw [hsnd]
      exact Finset.mem_insert_of_mem hx
    · intro s hs
      simp only [buildVariantSections] at hs ⊢
      rcases List.mem_cons.mp hs with rfl | h'
      · refine ⟨hfresh, ?_⟩
        refine ihmono _ ?_
        rw [hsnd]
        exact Finset.mem_insert_self _ _
      · obtain ⟨hnot, hmem⟩ := ihmem s h'
        refine ⟨?_, hmem⟩
        intro hu
        apply hnot
        rw [hsnd]
        exact Finset.mem_insert_of_mem hu
    · simp only [buildVariantSections, List.map_cons]
      rw [List.nodup_cons]
      refine ⟨?_, ihnodup⟩
      intro hmem
      obtain ⟨s, hs, he⟩ := List.mem_map.mp hmem
      obtain ⟨hnot, _⟩ := ihmem s hs
      apply hnot
      rw [hsnd, he]
      exact Finset.mem_insert_self _ _

theorem buildModelSections_slugs :
    ∀ (g : Grouped) (uS uM : Finset String) (sm : List (MKey × String)),
      (∀ x ∈ uS, x ∈ (buildModelSections g uS uM sm).2.1) ∧
      (∀ s ∈ (buildModelSections g uS uM sm).1,
        s.slug ∉ uS ∧ s.slug ∈ (buildModelSections g uS uM sm).2.1) ∧
      (((buildModelSections g uS uM sm).1).map Section.slug).Nodup := by
  intro g
  induction g with
  | nil =>
    intro uS uM sm
    exact ⟨fun x h => h, by simp [buildModelSections], by simp [buildModelSections]⟩
  | cons x rest ih =>
    obtain ⟨⟨model, generation⟩, variants⟩ := x
    intro uS uM sm
    simp only [buildModelSections]
    cases hlk : lookupMKey sm (model, generation) with
    | none =>
      simp only [hlk]
      obtain ⟨bvmono, bvmem, bvnodup⟩ := buildVariantSections_slugs model generation
        (format_section_title model generation)
        (unique_slug (slugify [model, generation]) uM).1 variants uS
      obtain ⟨ihmono, ihmem, ihnodup⟩ := ih
        (buildVariantSections model generation (format_section_title model generation)
          (unique_slug (slugify [model, generation]) uM).1 variants uS).2
        (unique_slug (slugify [model, generation]) uM).2
        (sm ++ [((model, generation), (unique_slug (slugify [model, generation]) uM).1)])
      refine ⟨?_, ?_, ?_⟩
      · intro z hz
        exact ihmono z (bvmono z hz)
      · intro s hs
        rcases List.mem_append.mp hs with h' | h'
        · obtain ⟨hnot, hmem⟩ := bvmem s h'
          exact ⟨hnot, ihmono _ hmem⟩
        · obtain ⟨hnot, hmem⟩ := ihmem s h'
          refine ⟨?_, hmem⟩
          intro hu
          exact hnot (bvmono _ hu)
      · rw [List.map_append, List.nodup_append]
        refine ⟨bvnodup, ihnodup, ?_⟩
        intro z hz hz'
        obtain ⟨s1, hs1, he1⟩ := List.mem_map.mp hz
        obtain ⟨s2, hs2, he2⟩ := List.mem_map.mp hz'
        obtain ⟨_, hmem1⟩ := bvmem s1 hs1
        obtain ⟨hnot2, _⟩ := ihmem s2 hs2
        apply hnot2
        rw [he2, ← he1]
        exact hmem1
    | some s0 =>
      simp only [hlk]
      obtain ⟨bvmono, bvmem, bvnodup⟩ := buildVariantSections_slugs model generation
        (format_section_title model generation) s0 variants uS
      obtain ⟨ihmono, ihmem, ihnodup⟩ := ih
        (buildVariantSections model generation (format_section_title model generation)
          s0 variants uS).2 uM sm
      refine ⟨?_, ?_, ?_⟩
      · intro z hz
        exact ihmono z (bvmono z hz)
      · intro s hs
        rcases List.mem_append.mp hs with h' | h'
        · obtain ⟨hnot, hmem⟩ := bvmem s h'
          exact ⟨hnot, ihmono _ hmem⟩
        · obtain ⟨hnot, hmem⟩ := ihmem s h'
          refine ⟨?_, hmem⟩
          intro hu
          exact hnot (bvmono _ hu)
      · rw [List.map_append, List.nodup_append]
        refine ⟨bvnodup, ihnodup, ?_⟩
        intro z hz hz'
        obtain ⟨s1, hs1, he1⟩ := List.mem_map.mp hz
        obtain ⟨s2, hs2, he2⟩ := List.mem_map.mp hz'
        obtain ⟨_, hmem1⟩ := bvmem s1 hs1
        obtain ⟨hnot2, _⟩ := ihmem s2 hs2
        apply hnot2
        rw [he2, ← he1]
        exact hmem1

theorem buildModelSections_mkey_mem (g : Grouped) (uS uM : Finset String)
    (sm : List (MKey × String)) (s : Section)
    (hs : s ∈ (buildModelSections g uS uM sm).1) :
    sectionMKey s ∈ g.map Prod.fst := by
  have hmem : sectionData s ∈
      g.flatMap (fun x => x.2.map (fun y => (x.1, y.1, y.2.map format_row))) := by
    rw [← buildModelSections_data g uS uM sm]
    exact List.mem_map_of_mem sectionData hs
  obtain ⟨x, hx, hy⟩ := List.mem_flatMap.mp hmem
  obtain ⟨y, hyv, heq⟩ := List.mem_map.mp hy
  have h1 : x.1 = sectionMKey s := congrArg Prod.fst heq
  rw [← h1]
  exact List.mem_map_of_mem Prod.fst hx

theorem buildModelSections_model_fields :
    ∀ (g : Grouped) (uS uM : Finset String) (sm : List (MKey × String)),
      (g.map Prod.fst).Nodup →
      ∀ s1 ∈ (buildModelSections g uS uM sm).1, ∀ s2 ∈ (buildModelSections g uS uM sm).1,
        sectionMKey s1 = sectionMKey s2 →
        s1.model_slug = s2.model_slug ∧ s1.model_title = s2.model_title := by
  intro g
  induction g with
  | nil => intro uS uM sm _ s1 h1; simp [buildModelSections] at h1
  | cons x rest ih =>
    obtain ⟨⟨model, generation⟩, variants⟩ := x
    intro uS uM sm hnod s1 h1 s2 h2 hkey
    simp only [List.map_cons, List.nodup_cons] at hnod
    simp only [buildModelSections] at h1 h2
    cases hlk : lookupMKey sm (model, generation) with
    | none =>
      simp only [hlk] at h1 h2
      rcases List.mem_append.mp h1 with h1' | h1' <;>
        rcases List.mem_append.mp h2 with h2' | h2'
      · have f1 := buildVariantSections_fields _ _ _ _ _ _ s1 h1'
        have f2 := buildVariantSections_fields _ _ _ _ _ _ s2 h2'
        exact ⟨f1.2.2.1.trans f2.2.2.1.symm, f1.2.2.2.trans f2.2.2.2.symm⟩
      · exfalso
        have hm2 := buildModelSections_mkey_mem rest _ _ _ s2 h2'
        have f1 := buildVariantSections_fields _ _ _ _ _ _ s1 h1'
        have hk1 : sectionMKey s1 = (model, generation) := by
          rw [sectionMKey, f1.1, f1.2.1]
        rw [← hkey, hk1] at hm2
        exact hnod.1 hm2
      · exfalso
        have hm1 := buildModelSections_mkey_mem rest _ _ _ s1 h1'
        have f2 := buildVariantSections_fields _ _ _ _ _ _ s2 h2'
        have hk2 : sectionMKey s2 = (model, generation) := by
          rw [sectionMKey, f2.1, f2.2.1]
        rw [hkey, hk2] at hm1
        exact hnod.1 hm1
      · exact ih _ _ _ hnod.2 s1 h1' s2 h2' hkey
    | some s0 =>
      simp only [hlk] at h1 h2
      rcases List.mem_append.mp h1 with h1' | h1' <;>
        rcases List.mem_append.mp h2 with h2' | h2'
      · have f1 := buildVariantSections_fields _ _ _ _ _ _ s1 h1'
        have f2 := buildVariantSections_fields _ _ _ _ _ _ s2 h2'
        exact ⟨f1.2.2.1.trans f2.2.2.1.symm, f1.2.2.2.trans f2.2.2.2.symm⟩
      · exfalso
        have hm2 := buildModelSections_mkey_mem rest _ _ _ s2 h2'
        have f1 := buildVariantSections_fields _ _ _ _ _ _ s1 h1'
        have hk1 : sectionMKey s1 = (model, generation) := by
          rw [sectionMKey, f1.1, f1.2.1]
        rw [← hkey, hk1] at hm2
        exact hnod.1 hm2
      · exfalso
        have hm1 := buildModelSections_mkey_mem rest _ _ _ s1 h1'
        have f2 := buildVariantSections_fields _ _ _ _ _ _ s2 h2'
        have hk2 : sectionMKey s2 = (model, generation) := by
          rw [sectionMKey, f2.1, f2.2.1]
        rw [hkey, hk2] at hm1
        exact hnod.1 hm1
      · exact ih _ _ _ hnod.2 s1 h1' s2 h2' hkey

theorem flatMap_keys_nodup :
    ∀ g : Grouped, (g.map Prod.fst).Nodup →
      (∀ mk vs, (mk, vs) ∈ g → (vs.map Prod.fst).Nodup) →
      (g.flatMap (fun x => x.2.map (fun y => (x.1, y.1)))).Nodup := by
  intro g
  induction g with
  | nil => intro _ _; simp
  | cons x rest ih =>
    obtain ⟨mk, vs⟩ := x
    intro hnod hinner
    simp only [List.map_cons, List.nodup_cons] at hnod
    simp only [List.flatMap_cons]
    rw [List.nodup_append]
    refine ⟨?_, ?_, ?_⟩
    · have hmm : vs.map (fun y : VKey × List Row => (mk, y.1)) =
          (vs.map Prod.fst).map (fun k => (mk, k)) := by
        rw [List.map_map]
        rfl
      rw [hmm]
      refine List.Nodup.map (fun a b h => congrArg Prod.snd h) (hinner mk vs (by simp))
    · exact ih hnod.2 (fun mk' vs' h => hinner mk' vs' (by simp [h]))
    · intro z hz hz'
      obtain ⟨y, hy, he⟩ := List.mem_map.mp hz
      obtain ⟨x', hx', hy'⟩ := List.mem_flatMap.mp hz'
      obtain ⟨y', hy'2, he'⟩ := List.mem_map.mp hy'
      apply hnod.1
      have h1 : mk = z.1 := congrArg Prod.fst he
      have h2 : x'.1 = z.1 := congrArg Prod.fst he'
      rw [h1, ← h2]
      exact List.mem_map_of_mem Prod.fst hx'

theorem flatMap_keys_eq (rows : List Row) :
    ∀ g : Grouped, (∀ mk vs, (mk, vs) ∈ g → vs.map Prod.fst = vkeysFirstOcc rows mk) →
      g.flatMap (fun x => x.2.map (fun y => (x.1, y.1))) =
        (g.map Prod.fst).flatMap
          (fun mk => (vkeysFirstOcc rows mk).map (fun vk => (mk, vk))) := by
  intro g
  induction g with
  | nil => intro _; rfl
  | cons x rest ih =>
    obtain ⟨mk, vs⟩ := x
    intro hinner
    simp only [List.flatMap_cons, List.map_cons]
    rw [ih (fun mk' vs' h => hinner mk' vs' (by simp [h]))]
    congr 1
    rw [← hinner mk vs (by simp), List.map_map]
    rfl

theorem build_sections_keys (rows : List Row) :
    (build_sections rows).map sectionKey =
      (groupRows rows).flatMap (fun x => x.2.map (fun y => (x.1, y.1))) := by
  have h0 : ∀ L : List Section,
      L.map sectionKey = (L.map sectionData).map (fun z => (z.1, z.2.1)) := by
    intro L
    rw [List.map_map]
    rfl
  rw [build_sections, h0, buildModelSections_data, List.map_flatMap]
  congr 1
  funext x
  rw [List.map_map]
  rfl

/-- C1: the round-trip property of `build_sections`.  Sections have pairwise
distinct grouping keys; each Section's row list is exactly the `format_row`
image of the input rows matching its key, in original input order; and every
input row whose resolved model is non-blank has a Section carrying its key —
hence each such row lands in exactly one Section, and rows with a blank
resolved model land in none. -/
theorem spec_C1 (rows : List Row) :
    ((build_sections rows).map sectionKey).Nodup ∧
    (∀ s ∈ build_sections rows,
      s.rows = (rowsFor rows (sectionMKey s) (sectionVKey s)).map format_row) ∧
    (∀ r ∈ rows, rowQual r = true →
      ∃ s ∈ build_sections rows, sectionKey s = rowKey r) := by
  obtain ⟨hi, hii, hiii⟩ := groupRows_inv rows
  have hdata := buildModelSections_data (groupRows rows) ∅ ∅ []
  refine ⟨?_, ?_, ?_⟩
  · rw [build_sections_keys]
    refine flatMap_keys_nodup (groupRows rows)
      (by rw [hi]; exact mkeysFirstOcc_nodup rows) ?_
    intro mk vs h
    rw [hii mk vs h]
    exact vkeysFirstOcc_nodup rows mk
  · intro s hs
    rw [build_sections] at hs
    have hmem : sectionData s ∈ (groupRows rows).flatMap
        (fun x => x.2.map (fun y => (x.1, y.1, y.2.map format_row))) := by
      rw [← hdata]
      exact List.mem_map_of_mem sectionData hs
    obtain ⟨x, hx, hy⟩ := List.mem_flatMap.mp hmem
    obtain ⟨mk, vs⟩ := x
    obtain ⟨y, hyv, heq⟩ := List.mem_map.mp hy
    obtain ⟨vk, es⟩ := y
    have hrows : s.rows = es.map format_row := (congrArg (fun z => z.2.2) heq).symm
    have hmk : sectionMKey s = mk := (congrArg Prod.fst heq).symm
    have hvk : sectionVKey s = vk := (congrArg (fun z => z.2.1) heq).symm
    rw [hrows, hmk, hvk, hiii mk vs hx vk es hyv]
  · intro r hr hq
    have hmk : rowMKey r ∈ mkeysFirstOcc rows :=
      (mkeysFirstOcc_mem rows (rowMKey r)).mpr ⟨r, hr, hq, rfl⟩
    rw [← hi] at hmk
    obtain ⟨x, hx, hxk⟩ := List.mem_map.mp hmk
    obtain ⟨mk, vs⟩ := x
    have hmkeq : mk = rowMKey r := hxk
    have hvk : rowVKey r ∈ vkeysFirstOcc rows mk :=
      (vkeysFirstOcc_mem rows mk (rowVKey r)).mpr ⟨r, hr, hq, hmkeq.symm, rfl⟩
    rw [← hii mk vs hx] at hvk
    obtain ⟨y, hyv, hyk⟩ := List.mem_map.mp hvk
    obtain ⟨vk, es⟩ := y
    have hvkeq : vk = rowVKey r := hyk
    have helem : (mk, vk, es.map format_row) ∈ (groupRows rows).flatMap
        (fun x => x.2.map (fun y => (x.1, y.1, y.2.map format_row))) :=
      List.mem_flatMap.mpr ⟨(mk, vs), hx, List.mem_map.mpr ⟨(vk, es), hyv, rfl⟩⟩
    rw [← hdata] at helem
    obtain ⟨s, hs, hse⟩ := List.mem_map.mp helem
    refine ⟨s, hs, ?_⟩
    have h1 : sectionMKey s = mk := congrArg Prod.fst hse
    have h2 : sectionVKey s = vk := congrArg (fun z => z.2.1) hse
    show (sectionMKey s, sectionVKey s) = (rowMKey r, rowVKey r)
    rw [h1, h2, hmkeq, hvkeq]

/-- C2: the hierarchy invariants of `build_sections`.  No two Sections share a
slug; Sections with the same model-key share `model_slug` and `model_title`;
and Sections are ordered by first occurrence of their model-key, then of their
variant-key within the model-key. -/
theorem spec_C2 (rows : List Row) :
    ((build_sections rows).map Section.slug).Nodup ∧
    (∀ s1 ∈ build_sections rows, ∀ s2 ∈ build_sections rows,
      sectionMKey s1 = sectionMKey s2 →
      s1.model_slug = s2.model_slug ∧ s1.model_title = s2.model_title) ∧
    (build_sections rows).map sectionKey =
      (mkeysFirstOcc rows).flatMap
        (fun mk => (vkeysFirstOcc rows mk).map (fun vk => (mk, vk))) := by
  obtain ⟨hi, hii, _⟩ := groupRows_inv rows
  refine ⟨?_, ?_, ?_⟩
  · rw [build_sections]
    exact (buildModelSections_slugs (groupRows rows) ∅ ∅ []).2.2
  · intro s1 h1 s2 h2 hkey
    rw [build_sections] at h1 h2
    exact buildModelSections_model_fields (groupRows rows) ∅ ∅ []
      (by rw [hi]; exact mkeysFirstOcc_nodup rows) s1 h1 s2 h2 hkey
  · rw [build_sections_keys, flatMap_keys_eq rows (groupRows rows) hii, hi]

/-- Witness for C1 at the concrete `demoRows`. -/
theorem spec_C1_witness :
    ((build_sections demoRows).map sectionKey).Nodup ∧
    ((build_sections demoRows).getD 0 quoteSection).rows =
      (rowsFor demoRows (sectionMKey ((build_sections demoRows).getD 0 quoteSection))
        (sectionVKey ((build_sections demoRows).getD 0 quoteSection))).map format_row ∧
    (∃ s ∈ build_sections demoRows, sectionKey s = rowKey (demoRows.getD 0 [])) :=
  ⟨(spec_C1 demoRows).1,
   (spec_C1 demoRows).2.1 _ (by decide),
   (spec_C1 demoRows).2.2 _ (by decide) (by decide)⟩

/-- Witness for C2 at the concrete `demoRows`: the first two sections share a
model-key and therefore `model_slug` and `model_title`. -/
theorem spec_C2_witness :
    ((build_sections demoRows).map Section.slug).Nodup ∧
    (((build_sections demoRows).getD 0 quoteSection).model_slug =
        ((build_sections demoRows).getD 1 quoteSection).model_slug ∧
      ((build_sections demoRows).getD 0 quoteSection).model_title =
        ((build_sections demoRows).getD 1 quoteSection).model_title) ∧
    (build_sections demoRows).map sectionKey =
      (mkeysFirstOcc demoRows).flatMap
        (fun mk => (vkeysFirstOcc demoRows mk).map (fun vk => (mk, vk))) :=
  ⟨(spec_C2 demoRows).1,
   (spec_C2 demoRows).2.1 _ (by decide) _ (by decide) (by decide),
   (spec_C2 demoRows).2.2⟩

end BuildPrices
